import Mathlib

/-!
# Verification of `src/discord/math-images.ts`

A shallow embedding of the math-image segmentation core: the delimiter
scanner (`findNextOpening` / `findClosingIndex`), the tokenizer
(`tokenizeMathText`), the segment builder (`buildDiscordMathSegments`)
and the configuration resolver (`resolveDiscordMathImageConfig`).

Modelling conventions:
* JavaScript strings are `List Char`; `String.prototype.indexOf` is
  modelled by `indexOfFrom` (least match position), `slice` by `sliceStr`
  and `drop`.
* The external code-span locator (`buildCodeSpanIndex` from
  `../markdown/code-spans.js`, outside this core) is an abstract predicate
  parameter, as the specification prescribes ("Contract only").
* The external asynchronous renderer is a function
  `Nat → List Char → Nat → Option buffer`: the first argument is the number
  of render calls made so far in the invocation, so that an arbitrary
  behaviour (any call may succeed or fail) can be expressed; `none` models
  a rejected promise, which the source absorbs in its `try/catch`.
  Sequential awaiting makes this pure threading exact.
* JavaScript numbers (for the configuration fields) are modelled by
  `JsNumber`: `NaN`, the infinities, or a finite rational; `Math.floor`
  and `Number.isFinite` act on it as in the source.
-/

namespace MathImages

/-- JavaScript string contents as a list of characters. -/
abbrev Str := List Char

/-- The two delimiter kinds of the source (`"double-dollar" | "bracket"`). -/
inductive DelimKind where
  | doubleDollar
  | bracket
  deriving DecidableEq, BEq, Repr

/-- `DelimiterSpec` from the source; `open`/`close` are Lean keywords, so the
fields are named `openMarker`/`closeMarker`. -/
structure DelimiterSpec where
  kind : DelimKind
  openMarker : Str
  closeMarker : Str
  deriving DecidableEq, Repr

/-- `DiscordMathToken` (union of `TextToken` and `FormulaToken`). -/
inductive DiscordMathToken where
  | text (text : Str)
  | formula (raw : Str) (expression : Str)
  deriving DecidableEq, Repr

/-- `DiscordMathSegment`; the image buffer is an opaque byte list. -/
inductive DiscordMathSegment where
  | text (text : Str)
  | mathImage (formulaText : Str) (expression : Str)
      (imageBuffer : List Nat) (fileName : Str)
  deriving DecidableEq, Repr

/-- `ResolvedDiscordMathImageConfig`.  The constant field
`formulaTextFormat : "plain"` carries no behaviour and is omitted. -/
structure ResolvedDiscordMathImageConfig where
  enabled : Bool
  delimiters : List DelimKind
  excludeCode : Bool
  maxExpressionsPerReply : Nat
  maxCharsPerExpression : Nat
  maxImageWidthPx : Nat
  deriving DecidableEq, Repr

/-- `DiscordMathSegmentResult`. -/
structure DiscordMathSegmentResult where
  segments : List DiscordMathSegment
  hasMathImages : Bool
  config : ResolvedDiscordMathImageConfig
  deriving DecidableEq, Repr

/-- A JavaScript `number` as far as the configuration resolver observes it:
`NaN`, an infinity, or a finite value (modelled as a rational, which covers
every finite double exactly). -/
inductive JsNumber where
  | nan
  | posInf
  | negInf
  | finite (val : ℚ)
  deriving DecidableEq

/-- Modelled from the spec: the partial configuration input type
`DiscordMathImageConfig` is declared in `../config/types.discord.js`,
outside this core.  Per the specification (§6) it is "an optional partial
configuration object with fields `{enabled?, delimiters?: list of
recognized kind-names, excludeCode?, maxExpressionsPerReply?,
maxCharsPerExpression?, maxImageWidthPx?}`"; delimiter entries are raw
strings, numeric entries are JavaScript numbers. -/
structure DiscordMathImageConfig where
  enabled : Option Bool := none
  delimiters : Option (List Str) := none
  excludeCode : Option Bool := none
  maxExpressionsPerReply : Option JsNumber := none
  maxCharsPerExpression : Option JsNumber := none
  maxImageWidthPx : Option JsNumber := none

/-- `DEFAULT_DELIMITERS`. -/
def DEFAULT_DELIMITERS : List DelimKind := [.doubleDollar, .bracket]

/-- `DEFAULT_MAX_EXPRESSIONS`. -/
def DEFAULT_MAX_EXPRESSIONS : Nat := 8

/-- `DEFAULT_MAX_CHARS`. -/
def DEFAULT_MAX_CHARS : Nat := 1200

/-- `DEFAULT_MAX_IMAGE_WIDTH_PX`. -/
def DEFAULT_MAX_IMAGE_WIDTH_PX : Nat := 2048

/-- `DELIMITER_SPECS`: `$$ … $$` and `\[ … \]`. -/
def DELIMITER_SPECS : List DelimiterSpec :=
  [ { kind := .doubleDollar, openMarker := ['$', '$'], closeMarker := ['$', '$'] },
    { kind := .bracket, openMarker := ['\\', '['], closeMarker := ['\\', ']'] } ]

/-- `normalizePositiveInt(value, fallback)`:
`typeof value !== "number" || !Number.isFinite(value)` falls back;
otherwise `Math.floor(value)` is returned when positive, else fallback. -/
def normalizePositiveInt (value : Option JsNumber) (fallback : Nat) : Nat :=
  match value with
  | none => fallback
  | some .nan => fallback
  | some .posInf => fallback
  | some .negInf => fallback
  | some (.finite q) =>
    let rounded : ℤ := ⌊q⌋
    if 0 < rounded then rounded.toNat else fallback

/-- The delimiter-name filter inside `resolveDiscordMathImageConfig`:
`value === "double-dollar" || value === "bracket"`, with recognized names
carried over as their kinds. -/
def parseDelimiterKind (value : Str) : Option DelimKind :=
  if value = "double-dollar".data then some .doubleDollar
  else if value = "bracket".data then some .bracket
  else none

/-- `resolveDiscordMathImageConfig(config?)`. -/
def resolveDiscordMathImageConfig (config : Option DiscordMathImageConfig) :
    ResolvedDiscordMathImageConfig :=
  let delimiters :=
    ((config.bind DiscordMathImageConfig.delimiters).map
      (fun list => list.filterMap parseDelimiterKind)).getD []
  let normalizedDelimiters := if delimiters.length > 0 then delimiters else DEFAULT_DELIMITERS
  { enabled := (config.bind DiscordMathImageConfig.enabled).getD true
    delimiters := normalizedDelimiters
    excludeCode := (config.bind DiscordMathImageConfig.excludeCode).getD true
    maxExpressionsPerReply :=
      normalizePositiveInt (config.bind DiscordMathImageConfig.maxExpressionsPerReply)
        DEFAULT_MAX_EXPRESSIONS
    maxCharsPerExpression :=
      normalizePositiveInt (config.bind DiscordMathImageConfig.maxCharsPerExpression)
        DEFAULT_MAX_CHARS
    maxImageWidthPx :=
      normalizePositiveInt (config.bind DiscordMathImageConfig.maxImageWidthPx)
        DEFAULT_MAX_IMAGE_WIDTH_PX }

/-- `text.slice(a, b)` (character range `[a, b)`). -/
def sliceStr (text : Str) (a b : Nat) : Str := (text.take b).drop a

/-- `pat` occurs in `text` at position `i` (the full pattern matches). -/
def matchAt (pat text : Str) (i : Nat) : Bool := (text.drop i).take pat.length == pat

/-- Model of `text.indexOf(pat, start)` for the non-empty patterns used by the
source: the least `i ≥ start` at which `pat` occurs, `none` for `-1`. -/
def indexOfFrom (text pat : Str) (start : Nat) : Option Nat :=
  ((List.range (text.length + 1 - start)).find? (fun off => matchAt pat text (start + off))).map
    (fun off => start + off)

theorem matchAt_iff {pat text : Str} {i : Nat} :
    matchAt pat text i = true ↔ (text.drop i).take pat.length = pat := by
  simp [matchAt]

theorem matchAt_bound {pat text : Str} {i : Nat} (hpat : pat ≠ [])
    (h : matchAt pat text i = true) : i + pat.length ≤ text.length := by
  rw [matchAt_iff] at h
  have hlen : ((text.drop i).take pat.length).length = pat.length := by rw [h]
  rw [List.length_take, List.length_drop] at hlen
  have h1 : pat.length ≤ text.length - i := min_eq_left_iff.mp hlen
  have h2 : 0 < pat.length := List.length_pos.mpr hpat
  omega

theorem matchAt_false_of_ge {pat text : Str} {i : Nat} (hpat : pat ≠ [])
    (h : text.length ≤ i) : matchAt pat text i = false := by
  by_contra hc
  rw [Bool.not_eq_false] at hc
  have := matchAt_bound hpat hc
  have : pat.length = 0 := by omega
  exact hpat (List.length_eq_zero.mp this)

theorem find?_range'_some {p : Nat → Bool} :
    ∀ {n s a : Nat}, (List.range' s n).find? p = some a →
      s ≤ a ∧ a < s + n ∧ p a = true ∧ ∀ j, s ≤ j → j < a → p j = false := by
  intro n
  induction n with
  | zero => intro s a h; simp at h
  | succ n ih =>
    intro s a h
    rw [List.range'_succ] at h
    by_cases hp : p s
    · rw [List.find?_cons_of_pos _ hp] at h
      obtain rfl : s = a := by simpa using h
      exact ⟨le_refl _, by omega, hp, fun j h1 h2 => absurd (lt_of_le_of_lt h1 h2) (lt_irrefl _)⟩
    · rw [List.find?_cons_of_neg _ hp] at h
      obtain ⟨h1, h2, h3, h4⟩ := ih h
      refine ⟨by omega, by omega, h3, fun j hj1 hj2 => ?_⟩
      rcases Nat.eq_or_lt_of_le hj1 with rfl | hlt
      · simpa using hp
      · exact h4 j hlt hj2

theorem find?_range'_none {p : Nat → Bool} {n s : Nat}
    (h : (List.range' s n).find? p = none) :
    ∀ j, s ≤ j → j < s + n → p j = false := by
  intro j h1 h2
  have := List.find?_eq_none.mp h j (List.mem_range'_1.mpr ⟨h1, h2⟩)
  simpa using this

theorem indexOfFrom_some {text pat : Str} {start i : Nat}
    (h : indexOfFrom text pat start = some i) :
    start ≤ i ∧ matchAt pat text i = true ∧
      ∀ j, start ≤ j → j < i → matchAt pat text j = false := by
  unfold indexOfFrom at h
  rw [Option.map_eq_some'] at h
  obtain ⟨off, hfind, rfl⟩ := h
  rw [List.range_eq_range'] at hfind
  obtain ⟨-, hlt, hp, hmin⟩ := find?_range'_some hfind
  refine ⟨Nat.le_add_right _ _, hp, fun j hj1 hj2 => ?_⟩
  have := hmin (j - start) (by omega) (by omega)
  have heq : start + (j - start) = j := by omega
  rwa [heq] at this

theorem indexOfFrom_none {text pat : Str} (hpat : pat ≠ []) {start : Nat}
    (h : indexOfFrom text pat start = none) :
    ∀ j, start ≤ j → matchAt pat text j = false := by
  unfold indexOfFrom at h
  rw [Option.map_eq_none'] at h
  rw [List.range_eq_range'] at h
  intro j hj
  by_cases hlen : text.length ≤ j
  · exact matchAt_false_of_ge hpat hlen
  · push_neg at hlen
    have := find?_range'_none h (j - start) (by omega) (by omega)
    have heq : start + (j - start) = j := by omega
    rwa [heq] at this

/-- The code-exclusion test: `isInsideCode` is optional in the source
(`!isInsideCode || !isInsideCode(index)` guards validity). -/
def excludedAt (isInsideCode : Option (Nat → Bool)) (i : Nat) : Bool :=
  match isInsideCode with
  | none => false
  | some p => p i

/-- The shared scanning loop of `findNextOpening` (per delimiter) and
`findClosingIndex`: `while (searchFrom < text.length) { const index =
text.indexOf(marker, searchFrom); if (index < 0) break/return -1; if (valid)
use index; searchFrom = index + 1; }`. -/
def scanForMarker (text marker : Str) (isInsideCode : Option (Nat → Bool))
    (searchFrom : Nat) : Option Nat :=
  if searchFrom < text.length then
    match h : indexOfFrom text marker searchFrom with
    | none => none
    | some index =>
      if excludedAt isInsideCode index then
        scanForMarker text marker isInsideCode (index + 1)
      else
        some index
  else none
termination_by text.length - searchFrom
decreasing_by
  have := (indexOfFrom_some h).1
  omega

theorem scanForMarker_found {text marker : Str} {inside : Option (Nat → Bool)}
    {searchFrom index : Nat}
    (hs : searchFrom < text.length)
    (h : indexOfFrom text marker searchFrom = some index)
    (hv : excludedAt inside index = false) :
    scanForMarker text marker inside searchFrom = some index := by
  rw [scanForMarker]
  simp only [hs, if_true]
  split
  · simp_all
  · rename_i idx heq
    rw [h] at heq
    obtain rfl : index = idx := by injection heq
    simp [hv]

theorem scanForMarker_skip {text marker : Str} {inside : Option (Nat → Bool)}
    {searchFrom index : Nat}
    (hs : searchFrom < text.length)
    (h : indexOfFrom text marker searchFrom = some index)
    (hv : excludedAt inside index = true) :
    scanForMarker text marker inside searchFrom =
      scanForMarker text marker inside (index + 1) := by
  rw [scanForMarker]
  simp only [hs, if_true]
  split
  · simp_all
  · rename_i idx heq
    rw [h] at heq
    obtain rfl : index = idx := by injection heq
    simp [hv]

theorem scanForMarker_nomatch {text marker : Str} {inside : Option (Nat → Bool)}
    {searchFrom : Nat}
    (hs : searchFrom < text.length)
    (h : indexOfFrom text marker searchFrom = none) :
    scanForMarker text marker inside searchFrom = none := by
  rw [scanForMarker]
  simp only [hs, if_true]
  split
  · rfl
  · simp_all

theorem scanForMarker_stop {text marker : Str} {inside : Option (Nat → Bool)}
    {searchFrom : Nat}
    (hs : ¬ searchFrom < text.length) :
    scanForMarker text marker inside searchFrom = none := by
  rw [scanForMarker]
  simp [hs]

/-- A valid occurrence for the scanner: the marker matches and the position is
not excluded as code. -/
def validOcc (text marker : Str) (inside : Option (Nat → Bool)) (j : Nat) : Prop :=
  matchAt marker text j = true ∧ excludedAt inside j = false

instance (text marker : Str) (inside : Option (Nat → Bool)) (j : Nat) :
    Decidable (validOcc text marker inside j) := by
  unfold validOcc; infer_instance

theorem scanForMarker_some_facts {text marker : Str} {inside : Option (Nat → Bool)}
    {searchFrom i : Nat}
    (h : scanForMarker text marker inside searchFrom = some i) :
    searchFrom ≤ i ∧ validOcc text marker inside i ∧
      ∀ j, searchFrom ≤ j → j < i → ¬ validOcc text marker inside j := by
  induction searchFrom using scanForMarker.induct text marker inside with
  | case1 x hx hnone =>
    rw [scanForMarker_nomatch hx hnone] at h
    exact absurd h (by simp)
  | case2 x hx index hidx hexcl ih =>
    rw [scanForMarker_skip hx hidx hexcl] at h
    obtain ⟨h1, h2, h3⟩ := ih h
    obtain ⟨hge, hm, hmin⟩ := indexOfFrom_some hidx
    refine ⟨by omega, h2, fun j hj1 hj2 => ?_⟩
    rcases Nat.lt_or_ge j index with hlt | hge2
    · intro hv
      have := hv.1
      simp [hmin j hj1 hlt] at this
    · rcases Nat.eq_or_lt_of_le hge2 with rfl | hgt
      · intro hv
        have := hv.2
        simp [hexcl] at this
      · exact h3 j hgt hj2
  | case3 x hx index hidx hexcl =>
    rw [Bool.not_eq_true] at hexcl
    rw [scanForMarker_found hx hidx hexcl] at h
    obtain rfl : index = i := by injection h
    obtain ⟨hge, hm, hmin⟩ := indexOfFrom_some hidx
    refine ⟨hge, ⟨hm, hexcl⟩, fun j hj1 hj2 hv => ?_⟩
    have := hv.1
    simp [hmin j hj1 hj2] at this
  | case4 x hx =>
    rw [scanForMarker_stop hx] at h
    exact absurd h (by simp)

theorem scanForMarker_none_facts {text marker : Str} (hpat : marker ≠ [])
    {inside : Option (Nat → Bool)} {searchFrom : Nat}
    (h : scanForMarker text marker inside searchFrom = none) :
    ∀ j, searchFrom ≤ j → ¬ validOcc text marker inside j := by
  induction searchFrom using scanForMarker.induct text marker inside with
  | case1 x hx hnone =>
    intro j hj hv
    have := hv.1
    simp [indexOfFrom_none hpat hnone j hj] at this
  | case2 x hx index hidx hexcl ih =>
    rw [scanForMarker_skip hx hidx hexcl] at h
    obtain ⟨hge, hm, hmin⟩ := indexOfFrom_some hidx
    intro j hj hv
    rcases Nat.lt_or_ge j index with hlt | hge2
    · have := hv.1
      simp [hmin j hj hlt] at this
    · rcases Nat.eq_or_lt_of_le hge2 with rfl | hgt
      · have := hv.2
        simp [hexcl] at this
      · exact ih h j hgt hv
  | case3 x hx index hidx hexcl =>
    rw [Bool.not_eq_true] at hexcl
    rw [scanForMarker_found hx hidx hexcl] at h
    exact absurd h (by simp)
  | case4 x hx =>
    intro j hj hv
    have hle : text.length ≤ j := by omega
    have := hv.1
    simp [matchAt_false_of_ge hpat hle] at this

/-- Completeness: a valid occurrence at or after the start position guarantees
that the scan succeeds (skipped candidates never terminate the search). -/
theorem scanForMarker_complete {text marker : Str} (hpat : marker ≠ [])
    {inside : Option (Nat → Bool)} {searchFrom j : Nat}
    (hj : searchFrom ≤ j) (hv : validOcc text marker inside j) :
    ∃ i, scanForMarker text marker inside searchFrom = some i := by
  cases h : scanForMarker text marker inside searchFrom with
  | none => exact absurd hv (scanForMarker_none_facts hpat h j hj)
  | some i => exact ⟨i, rfl⟩

/-- Loop body of `findNextOpening`: keep the best (leftmost) valid occurrence
seen so far (`if (!best || index < best.index) best = { index, delimiter }`). -/
def findNextOpeningStep (text : Str) (isInsideCode : Option (Nat → Bool)) (fromIndex : Nat)
    (best : Option (Nat × DelimiterSpec)) (delimiter : DelimiterSpec) :
    Option (Nat × DelimiterSpec) :=
  match scanForMarker text delimiter.openMarker isInsideCode fromIndex with
  | none => best
  | some index =>
    match best with
    | none => some (index, delimiter)
    | some b => if index < b.1 then some (index, delimiter) else best

/-- `findNextOpening({text, fromIndex, delimiters, isInsideCode})`. -/
def findNextOpening (text : Str) (fromIndex : Nat) (delimiters : List DelimiterSpec)
    (isInsideCode : Option (Nat → Bool)) : Option (Nat × DelimiterSpec) :=
  delimiters.foldl (findNextOpeningStep text isInsideCode fromIndex) none

/-- `findClosingIndex({text, fromIndex, delimiter, isInsideCode})`: the source
repeats the same scanning loop for the close marker (`-1` is `none` here). -/
def findClosingIndex (text : Str) (fromIndex : Nat) (delimiter : DelimiterSpec)
    (isInsideCode : Option (Nat → Bool)) : Option Nat :=
  scanForMarker text delimiter.closeMarker isInsideCode fromIndex

theorem foldl_step_some {text : Str} {inside : Option (Nat → Bool)} {fromIndex : Nat} :
    ∀ (ds : List DelimiterSpec) (init : Option (Nat × DelimiterSpec)) {i : Nat}
      {d : DelimiterSpec},
      ds.foldl (findNextOpeningStep text inside fromIndex) init = some (i, d) →
        init = some (i, d) ∨
          (d ∈ ds ∧ scanForMarker text d.openMarker inside fromIndex = some i) := by
  intro ds
  induction ds with
  | nil => intro init i d h; exact Or.inl h
  | cons d0 rest ih =>
    intro init i d h
    rw [List.foldl_cons] at h
    rcases ih _ h with hstep | ⟨hmem, hscan⟩
    · unfold findNextOpeningStep at hstep
      split at hstep
      · exact Or.inl hstep
      · rename_i index hscan0
        split at hstep
        · obtain ⟨rfl, rfl⟩ : i = index ∧ d = d0 := by
            constructor <;> { injection hstep with h1; cases h1; rfl }
          exact Or.inr ⟨List.mem_cons_self _ _, hscan0⟩
        · split at hstep
          · obtain ⟨rfl, rfl⟩ : i = index ∧ d = d0 := by
              constructor <;> { injection hstep with h1; cases h1; rfl }
            exact Or.inr ⟨List.mem_cons_self _ _, hscan0⟩
          · exact Or.inl hstep
    · exact Or.inr ⟨List.mem_cons_of_mem _ hmem, hscan⟩

theorem foldl_step_none {text : Str} {inside : Option (Nat → Bool)} {fromIndex : Nat} :
    ∀ (ds : List DelimiterSpec) (init : Option (Nat × DelimiterSpec)),
      ds.foldl (findNextOpeningStep text inside fromIndex) init = none →
        init = none ∧
          ∀ d ∈ ds, scanForMarker text d.openMarker inside fromIndex = none := by
  intro ds
  induction ds with
  | nil => intro init h; exact ⟨h, by simp⟩
  | cons d0 rest ih =>
    intro init h
    rw [List.foldl_cons] at h
    obtain ⟨hstep, hrest⟩ := ih _ h
    unfold findNextOpeningStep at hstep
    split at hstep
    · rename_i hscan0
      refine ⟨hstep, fun d hd => ?_⟩
      rcases List.mem_cons.mp hd with rfl | hd
      · exact hscan0
      · exact hrest d hd
    · split at hstep
      · simp at hstep
      · split at hstep
        · simp at hstep
        · simp at hstep

theorem foldl_step_min {text : Str} {inside : Option (Nat → Bool)} {fromIndex : Nat} :
    ∀ (ds : List DelimiterSpec) (init : Option (Nat × DelimiterSpec)) {i : Nat}
      {d : DelimiterSpec},
      ds.foldl (findNextOpeningStep text inside fromIndex) init = some (i, d) →
        (∀ b, init = some b → i ≤ b.1) ∧
          ∀ d' ∈ ds, ∀ j, scanForMarker text d'.openMarker inside fromIndex = some j →
            i ≤ j := by
  intro ds
  induction ds with
  | nil =>
    intro init i d h
    refine ⟨fun b hb => ?_, by simp⟩
    rw [List.foldl_nil] at h
    rw [h] at hb
    obtain rfl : (i, d) = b := by injection hb
    exact le_refl _
  | cons d0 rest ih =>
    intro init i d h
    rw [List.foldl_cons] at h
    obtain ⟨hinit, hrest⟩ := ih _ h
    constructor
    · intro b hb
      subst hb
      unfold findNextOpeningStep at hinit
      cases hscan0 : scanForMarker text d0.openMarker inside fromIndex with
      | none =>
        exact hinit _ (by rw [hscan0])
      | some index =>
        rcases Nat.lt_or_ge index b.1 with hlt | hge
        · have := hinit (index, d0) (by rw [hscan0]; simp [hlt])
          simp at this
          omega
        · exact hinit b (by rw [hscan0]; simp [Nat.not_lt.mpr hge])
    · intro d' hd' j hscan
      rcases List.mem_cons.mp hd' with rfl | hd'
      · unfold findNextOpeningStep at hinit
        rw [hscan] at hinit
        cases hinitv : init with
        | none =>
          have := hinit (j, d') (by rw [hinitv])
          simpa using this
        | some b =>
          rcases Nat.lt_or_ge j b.1 with hlt | hge
          · have := hinit (j, d') (by rw [hinitv]; simp [hlt])
            simpa using this
          · have := hinit b (by rw [hinitv]; simp [Nat.not_lt.mpr hge])
            omega
      · exact hrest d' hd' j hscan

theorem findNextOpening_some_facts {text : Str} {fromIndex : Nat}
    {delimiters : List DelimiterSpec} {inside : Option (Nat → Bool)} {i : Nat}
    {d : DelimiterSpec}
    (h : findNextOpening text fromIndex delimiters inside = some (i, d)) :
    d ∈ delimiters ∧
      scanForMarker text d.openMarker inside fromIndex = some i ∧
      ∀ d' ∈ delimiters, ∀ j,
        scanForMarker text d'.openMarker inside fromIndex = some j → i ≤ j := by
  unfold findNextOpening at h
  rcases foldl_step_some _ _ h with hinit | ⟨hmem, hscan⟩
  · simp at hinit
  · exact ⟨hmem, hscan, (foldl_step_min _ _ h).2⟩

theorem findNextOpening_none_facts {text : Str} {fromIndex : Nat}
    {delimiters : List DelimiterSpec} {inside : Option (Nat → Bool)}
    (h : findNextOpening text fromIndex delimiters inside = none) :
    ∀ d ∈ delimiters, scanForMarker text d.openMarker inside fromIndex = none := by
  unfold findNextOpening at h
  exact (foldl_step_none _ _ h).2

theorem findNextOpening_complete {text : Str} {fromIndex : Nat}
    {delimiters : List DelimiterSpec} {inside : Option (Nat → Bool)}
    {d : DelimiterSpec} (hpat : d.openMarker ≠ []) (hd : d ∈ delimiters) {j : Nat}
    (hj : fromIndex ≤ j) (hv : validOcc text d.openMarker inside j) :
    findNextOpening text fromIndex delimiters inside ≠ none := by
  intro h
  obtain ⟨i, hi⟩ := scanForMarker_complete hpat hj hv
  rw [findNextOpening_none_facts h d hd] at hi
  exact absurd hi (by simp)

/-- `appendTextToken(tokens, text)`: skip empty text, extend a trailing text
token in place, otherwise push a new text token.  The in-place mutation of the
source is rendered structurally (rebuild the list with the last element
extended). -/
def appendTextToken (tokens : List DiscordMathToken) (t : Str) : List DiscordMathToken :=
  match tokens, t with
  | tokens, [] => tokens
  | [], t => [.text t]
  | [DiscordMathToken.text s], t => [.text (s ++ t)]
  | [tok], t => [tok, .text t]
  | tok :: rest, t => tok :: appendTextToken rest t

/-- The `while (cursor < text.length)` loop of `tokenizeMathText`.  `hne`
records that every active delimiter has a non-empty open marker (true of both
fixed `DELIMITER_SPECS`), which the loop needs to make progress. -/
def tokenizeLoop (text : Str) (delimiters : List DelimiterSpec)
    (hne : ∀ d ∈ delimiters, d.openMarker ≠ [])
    (isInsideCode : Option (Nat → Bool))
    (tokens : List DiscordMathToken) (cursor : Nat) : List DiscordMathToken :=
  if hcur : cursor < text.length then
    match hop : findNextOpening text cursor delimiters isInsideCode with
    | none => appendTextToken tokens (text.drop cursor)
    | some opening =>
      let tokens1 :=
        if opening.1 > cursor then appendTextToken tokens (sliceStr text cursor opening.1)
        else tokens
      let expressionStart := opening.1 + opening.2.openMarker.length
      match hcl : findClosingIndex text expressionStart opening.2 isInsideCode with
      | none => appendTextToken tokens1 (text.drop opening.1)
      | some closeIndex =>
        let expression := sliceStr text expressionStart closeIndex
        let raw := sliceStr text opening.1 (closeIndex + opening.2.closeMarker.length)
        tokenizeLoop text delimiters hne isInsideCode
          (tokens1 ++ [DiscordMathToken.formula raw expression])
          (closeIndex + opening.2.closeMarker.length)
  else tokens
termination_by text.length - cursor
decreasing_by
  have h1 := (findNextOpening_some_facts hop).2.1
  have h2 := (scanForMarker_some_facts h1).1
  have h3 := (scanForMarker_some_facts hcl).1
  have h4 : opening.2.openMarker ≠ [] := hne _ (findNextOpening_some_facts hop).1
  have h5 : 0 < opening.2.openMarker.length := List.length_pos.mpr h4
  omega

/-- Both fixed delimiter specs have non-empty markers. -/
theorem delimiterSpecs_open_ne_nil : ∀ d ∈ DELIMITER_SPECS, d.openMarker ≠ [] := by
  decide

/-- The `activeDelimiters` computation of `tokenizeMathText`:
`DELIMITER_SPECS.filter((item) => config.delimiters.includes(item.kind))`. -/
def activeDelimiters (config : ResolvedDiscordMathImageConfig) : List DelimiterSpec :=
  DELIMITER_SPECS.filter (fun item => config.delimiters.contains item.kind)

theorem activeDelimiters_open_ne_nil (config : ResolvedDiscordMathImageConfig) :
    ∀ d ∈ activeDelimiters config, d.openMarker ≠ [] :=
  fun d hd => delimiterSpecs_open_ne_nil d (List.mem_of_mem_filter hd)

/-- `tokenizeMathText(text, config)`.  `codeSpanIndex` stands for the external
`buildCodeSpanIndex` collaborator (the code-span locator), which the
specification keeps abstract ("Contract only"). -/
def tokenizeMathText (codeSpanIndex : Str → Nat → Bool) (text : Str)
    (config : ResolvedDiscordMathImageConfig) : List DiscordMathToken :=
  if (activeDelimiters config).isEmpty then [.text text]
  else
    let isInsideCode : Option (Nat → Bool) :=
      if config.excludeCode then some (codeSpanIndex text) else none
    let tokens :=
      tokenizeLoop text (activeDelimiters config)
        (activeDelimiters_open_ne_nil config)
        isInsideCode [] 0
    if tokens.isEmpty then [.text text] else tokens

/-- `appendMathTextSegment(segments, text)`: same merge-on-append as
`appendTextToken`, on segments. -/
def appendMathTextSegment (segments : List DiscordMathSegment) (t : Str) :
    List DiscordMathSegment :=
  match segments, t with
  | segments, [] => segments
  | [], t => [.text t]
  | [DiscordMathSegment.text s], t => [.text (s ++ t)]
  | [seg], t => [seg, .text t]
  | seg :: rest, t => seg :: appendMathTextSegment rest t

/-- `equation-${imageCount}.png`. -/
def mathImageFileName (imageCount : Nat) : Str :=
  ("equation-" ++ toString imageCount ++ ".png").data

/-- A renderer behaviour: given the number of render calls already made in
this invocation, the expression and `maxImageWidthPx`, either an image buffer
(resolved promise) or `none` (rejected promise). -/
abbrev RenderBehaviour := Nat → Str → Nat → Option (List Nat)

/-- The token loop of `buildDiscordMathSegments`.  State: the segment list,
`imageCount`, and the (ghost) log of expressions passed to the renderer so
far, whose length indexes the next render call.  The `catch` branch's
`logVerbose` call is external observability and has no effect on the
result. -/
def buildSegmentsLoop (config : ResolvedDiscordMathImageConfig) (render : RenderBehaviour) :
    List DiscordMathToken → List DiscordMathSegment → Nat → List Str →
      List DiscordMathSegment × Nat × List Str
  | [], segments, imageCount, calls => (segments, imageCount, calls)
  | DiscordMathToken.text t :: rest, segments, imageCount, calls =>
    buildSegmentsLoop config render rest (appendMathTextSegment segments t) imageCount calls
  | DiscordMathToken.formula raw expression :: rest, segments, imageCount, calls =>
    if imageCount ≥ config.maxExpressionsPerReply then
      buildSegmentsLoop config render rest (appendMathTextSegment segments raw) imageCount calls
    else if expression.length > config.maxCharsPerExpression then
      buildSegmentsLoop config render rest (appendMathTextSegment segments raw) imageCount calls
    else
      match render calls.length expression config.maxImageWidthPx with
      | some imageBuffer =>
        buildSegmentsLoop config render rest
          (segments ++
            [.mathImage raw expression imageBuffer (mathImageFileName (imageCount + 1))])
          (imageCount + 1) (calls ++ [expression])
      | none =>
        buildSegmentsLoop config render rest (appendMathTextSegment segments raw) imageCount
          (calls ++ [expression])

/-- Whether a token is a formula token (`token.kind === "formula"`). -/
def DiscordMathToken.isFormula : DiscordMathToken → Bool
  | .formula _ _ => true
  | .text _ => false

/-- Whether a segment is a math-image segment. -/
def DiscordMathSegment.isMathImage : DiscordMathSegment → Bool
  | .mathImage _ _ _ _ => true
  | .text _ => false

/-- `buildDiscordMathSegments(text, configInput, deps)`: the public entry
point.  `codeSpanIndex` models the external code-span locator and `render`
the (injected or default) renderer; both are collaborators outside this
core. -/
def buildDiscordMathSegments (codeSpanIndex : Str → Nat → Bool) (render : RenderBehaviour)
    (text : Str) (configInput : Option DiscordMathImageConfig) : DiscordMathSegmentResult :=
  let config := resolveDiscordMathImageConfig configInput
  if !config.enabled || text.isEmpty then
    { config := config, hasMathImages := false, segments := [.text text] }
  else
    let tokens := tokenizeMathText codeSpanIndex text config
    if !(tokens.any DiscordMathToken.isFormula) then
      { config := config, hasMathImages := false, segments := [.text text] }
    else
      let result := buildSegmentsLoop config render tokens [] 0 []
      let segments := result.1
      if segments.isEmpty then
        { config := config, hasMathImages := false, segments := [.text text] }
      else
        { config := config
          hasMathImages := segments.any DiscordMathSegment.isMathImage
          segments := segments }

/-- The text a token contributes to the reconstruction (`content` for text
tokens, `rawText` for formula tokens). -/
def tokenStr : DiscordMathToken → Str
  | .text t => t
  | .formula raw _ => raw

/-- Concatenation of a token sequence. -/
def tokensConcat (tokens : List DiscordMathToken) : Str := (tokens.map tokenStr).flatten

/-- The text a segment contributes to the reconstruction (`content` for text
segments, `formulaText` for math-image segments). -/
def segmentStr : DiscordMathSegment → Str
  | .text t => t
  | .mathImage formulaText _ _ _ => formulaText

/-- Concatenation of a segment sequence. -/
def segmentsConcat (segments : List DiscordMathSegment) : Str :=
  (segments.map segmentStr).flatten

theorem tokensConcat_nil : tokensConcat [] = [] := rfl

theorem tokensConcat_cons (tok : DiscordMathToken) (rest : List DiscordMathToken) :
    tokensConcat (tok :: rest) = tokenStr tok ++ tokensConcat rest := by
  simp [tokensConcat]

theorem tokensConcat_append (a b : List DiscordMathToken) :
    tokensConcat (a ++ b) = tokensConcat a ++ tokensConcat b := by
  simp [tokensConcat]

theorem segmentsConcat_cons (seg : DiscordMathSegment) (rest : List DiscordMathSegment) :
    segmentsConcat (seg :: rest) = segmentStr seg ++ segmentsConcat rest := by
  simp [segmentsConcat]

theorem segmentsConcat_append (a b : List DiscordMathSegment) :
    segmentsConcat (a ++ b) = segmentsConcat a ++ segmentsConcat b := by
  simp [segmentsConcat]

theorem appendTextToken_concat (tokens : List DiscordMathToken) (t : Str) :
    tokensConcat (appendTextToken tokens t) = tokensConcat tokens ++ t := by
  induction tokens, t using appendTextToken.induct with
  | case1 tokens => simp [appendTextToken]
  | case2 t ht => simp [appendTextToken, tokensConcat, tokenStr, ht]
  | case3 s t ht => simp [appendTextToken, tokensConcat, tokenStr, ht]
  | case4 tok t ht h2 =>
    match tok with
    | .text s => exact absurd rfl (h2 s)
    | .formula raw e => simp [appendTextToken, tokensConcat, tokenStr, ht]
  | case5 tok rest t ht h2 h3 ih =>
    have : appendTextToken (tok :: rest) t = tok :: appendTextToken rest t := by
      match rest with
      | [] => exact absurd rfl h3
      | r :: rs =>
        cases tok <;> cases t <;> simp [appendTextToken]
    rw [this, tokensConcat_cons, tokensConcat_cons, ih, List.append_assoc]

theorem appendMathTextSegment_concat (segments : List DiscordMathSegment) (t : Str) :
    segmentsConcat (appendMathTextSegment segments t) = segmentsConcat segments ++ t := by
  induction segments, t using appendMathTextSegment.induct with
  | case1 segments => simp [appendMathTextSegment]
  | case2 t ht => simp [appendMathTextSegment, segmentsConcat, segmentStr, ht]
  | case3 s t ht => simp [appendMathTextSegment, segmentsConcat, segmentStr, ht]
  | case4 seg t ht h2 =>
    match seg with
    | .text s => exact absurd rfl (h2 s)
    | .mathImage ft e b n => simp [appendMathTextSegment, segmentsConcat, segmentStr, ht]
  | case5 seg rest t ht h2 h3 ih =>
    have : appendMathTextSegment (seg :: rest) t = seg :: appendMathTextSegment rest t := by
      match rest with
      | [] => exact absurd rfl h3
      | r :: rs =>
        cases seg <;> cases t <;> simp [appendMathTextSegment]
    rw [this, segmentsConcat_cons, segmentsConcat_cons, ih, List.append_assoc]

theorem tokenizeLoop_stop {text : Str} {delimiters : List DelimiterSpec}
    {hne : ∀ d ∈ delimiters, d.openMarker ≠ []} {inside : Option (Nat → Bool)}
    {tokens : List DiscordMathToken} {cursor : Nat}
    (hcur : ¬ cursor < text.length) :
    tokenizeLoop text delimiters hne inside tokens cursor = tokens := by
  rw [tokenizeLoop]
  simp [hcur]

theorem tokenizeLoop_noOpen {text : Str} {delimiters : List DelimiterSpec}
    {hne : ∀ d ∈ delimiters, d.openMarker ≠ []} {inside : Option (Nat → Bool)}
    {tokens : List DiscordMathToken} {cursor : Nat}
    (hcur : cursor < text.length)
    (hop : findNextOpening text cursor delimiters inside = none) :
    tokenizeLoop text delimiters hne inside tokens cursor =
      appendTextToken tokens (text.drop cursor) := by
  rw [tokenizeLoop]
  simp only [dif_pos hcur]
  split
  · rfl
  · simp_all

theorem tokenizeLoop_noClose {text : Str} {delimiters : List DelimiterSpec}
    {hne : ∀ d ∈ delimiters, d.openMarker ≠ []} {inside : Option (Nat → Bool)}
    {tokens : List DiscordMathToken} {cursor : Nat} {opening : Nat × DelimiterSpec}
    (hcur : cursor < text.length)
    (hop : findNextOpening text cursor delimiters inside = some opening)
    (hcl : findClosingIndex text (opening.1 + opening.2.openMarker.length) opening.2
      inside = none) :
    tokenizeLoop text delimiters hne inside tokens cursor =
      appendTextToken
        (if opening.1 > cursor then appendTextToken tokens (sliceStr text cursor opening.1)
         else tokens)
        (text.drop opening.1) := by
  rw [tokenizeLoop]
  simp only [dif_pos hcur]
  split
  · simp_all
  · rename_i op heq
    rw [hop] at heq
    obtain rfl : opening = op := by injection heq
    split
    · rfl
    · simp_all

theorem tokenizeLoop_formula {text : Str} {delimiters : List DelimiterSpec}
    {hne : ∀ d ∈ delimiters, d.openMarker ≠ []} {inside : Option (Nat → Bool)}
    {tokens : List DiscordMathToken} {cursor : Nat} {opening : Nat × DelimiterSpec}
    {closeIndex : Nat}
    (hcur : cursor < text.length)
    (hop : findNextOpening text cursor delimiters inside = some opening)
    (hcl : findClosingIndex text (opening.1 + opening.2.openMarker.length) opening.2
      inside = some closeIndex) :
    tokenizeLoop text delimiters hne inside tokens cursor =
      tokenizeLoop text delimiters hne inside
        ((if opening.1 > cursor then appendTextToken tokens (sliceStr text cursor opening.1)
          else tokens) ++
          [DiscordMathToken.formula
            (sliceStr text opening.1 (closeIndex + opening.2.closeMarker.length))
            (sliceStr text (opening.1 + opening.2.openMarker.length) closeIndex)])
        (closeIndex + opening.2.closeMarker.length) := by
  rw [tokenizeLoop]
  simp only [dif_pos hcur]
  split
  · simp_all
  · rename_i op heq
    rw [hop] at heq
    obtain rfl : opening = op := by injection heq
    split
    · simp_all
    · rename_i ci heq2
      rw [hcl] at heq2
      obtain rfl : closeIndex = ci := by injection heq2
      rfl

theorem take_append_sliceStr {text : Str} {a b : Nat} (h : a ≤ b) :
    text.take a ++ sliceStr text a b = text.take b := by
  unfold sliceStr
  have h1 : (text.take b).take a = text.take a := by
    rw [List.take_take, min_eq_left h]
  calc
    text.take a ++ (text.take b).drop a
        = (text.take b).take a ++ (text.take b).drop a := by rw [h1]
    _ = text.take b := List.take_append_drop _ _

/-- The loop invariant of the tokenizer: if the tokens accumulated so far
concatenate to the consumed part of the text, the final token list
concatenates to the whole text. -/
theorem tokenizeLoop_concat {text : Str} {delimiters : List DelimiterSpec}
    {hne : ∀ d ∈ delimiters, d.openMarker ≠ []} {inside : Option (Nat → Bool)} :
    ∀ (tokens : List DiscordMathToken) (cursor : Nat),
      tokensConcat tokens = text.take cursor →
        tokensConcat (tokenizeLoop text delimiters hne inside tokens cursor) = text := by
  intro tokens cursor
  induction tokens, cursor using tokenizeLoop.induct text delimiters hne inside with
  | case1 tokens cursor hcur hop =>
    intro h
    rw [tokenizeLoop_noOpen hcur hop, appendTextToken_concat, h, List.take_append_drop]
  | case2 tokens cursor hcur opening hop es hcl =>
    intro h
    have hle : cursor ≤ opening.1 :=
      (scanForMarker_some_facts (findNextOpening_some_facts hop).2.1).1
    rw [tokenizeLoop_noClose hcur hop hcl, appendTextToken_concat]
    have h1 :
        tokensConcat
          (if opening.1 > cursor then appendTextToken tokens (sliceStr text cursor opening.1)
           else tokens) = text.take opening.1 := by
      split
      · rw [appendTextToken_concat, h, take_append_sliceStr hle]
      · rename_i hgt
        have : opening.1 = cursor := by omega
        rw [h, this]
    rw [h1, List.take_append_drop]
  | case3 tokens cursor hcur opening hop tokens1 es index hcl expression raw ih =>
    intro h
    have hle : cursor ≤ opening.1 :=
      (scanForMarker_some_facts (findNextOpening_some_facts hop).2.1).1
    have hle2 : opening.1 + opening.2.openMarker.length ≤ index :=
      (scanForMarker_some_facts hcl).1
    rw [tokenizeLoop_formula hcur hop hcl]
    apply ih
    rw [tokensConcat_append]
    have h1 :
        tokensConcat
          (if opening.1 > cursor then appendTextToken tokens (sliceStr text cursor opening.1)
           else tokens) = text.take opening.1 := by
      split
      · rw [appendTextToken_concat, h, take_append_sliceStr hle]
      · rename_i hgt
        have : opening.1 = cursor := by omega
        rw [h, this]
    have h2 : tokensConcat
        [DiscordMathToken.formula
          (sliceStr text opening.1 (index + opening.2.closeMarker.length))
          (sliceStr text (opening.1 + opening.2.openMarker.length) index)] =
        sliceStr text opening.1 (index + opening.2.closeMarker.length) := by
      simp [tokensConcat, tokenStr]
    show tokensConcat
        (if opening.1 > cursor then appendTextToken tokens (sliceStr text cursor opening.1)
         else tokens) ++
        tokensConcat
          [DiscordMathToken.formula
            (sliceStr text opening.1 (index + opening.2.closeMarker.length))
            (sliceStr text (opening.1 + opening.2.openMarker.length) index)] =
      text.take (index + opening.2.closeMarker.length)
    rw [h1, h2, take_append_sliceStr (by omega)]
  | case4 tokens cursor hcur =>
    intro h
    rw [tokenizeLoop_stop hcur, h]
    have : text.length ≤ cursor := by omega
    exact List.take_of_length_le this

theorem tokenizeMathText_concat (codeSpanIndex : Str → Nat → Bool) (text : Str)
    (config : ResolvedDiscordMathImageConfig) :
    tokensConcat (tokenizeMathText codeSpanIndex text config) = text := by
  rw [tokenizeMathText]
  simp only []
  split
  · simp [tokensConcat, tokenStr]
  · split
    all_goals
      split
      · simp [tokensConcat, tokenStr]
      · exact tokenizeLoop_concat [] 0 rfl

theorem buildSegmentsLoop_concat (config : ResolvedDiscordMathImageConfig)
    (render : RenderBehaviour) :
    ∀ (tokens : List DiscordMathToken) (segments : List DiscordMathSegment)
      (imageCount : Nat) (calls : List Str),
      segmentsConcat (buildSegmentsLoop config render tokens segments imageCount calls).1 =
        segmentsConcat segments ++ tokensConcat tokens := by
  intro tokens
  induction tokens with
  | nil =>
    intro segments imageCount calls
    simp [buildSegmentsLoop, tokensConcat]
  | cons tok rest ih =>
    intro segments imageCount calls
    cases tok with
    | text t =>
      simp only [buildSegmentsLoop]
      rw [ih, appendMathTextSegment_concat, tokensConcat_cons]
      simp [tokenStr, List.append_assoc]
    | formula raw e =>
      simp only [buildSegmentsLoop]
      split
      · rw [ih, appendMathTextSegment_concat, tokensConcat_cons]
        simp [tokenStr, List.append_assoc]
      · split
        · rw [ih, appendMathTextSegment_concat, tokensConcat_cons]
          simp [tokenStr, List.append_assoc]
        · split
          · rw [ih, segmentsConcat_append, tokensConcat_cons]
            simp [segmentsConcat, segmentStr, tokenStr, List.append_assoc]
          · rw [ih, appendMathTextSegment_concat, tokensConcat_cons]
            simp [tokenStr, List.append_assoc]

/-- C1 --- Faithfulness of reconstruction: for every input text, every
configuration input, every code-span predicate and every renderer behaviour,
concatenating in order each segment's `content`/`formulaText` from the result
of `buildDiscordMathSegments` yields the original input exactly, and the token
sequence produced by `tokenizeMathText` likewise concatenates back to the
input. -/
theorem C1_faithful_reconstruction (codeSpanIndex : Str → Nat → Bool)
    (render : RenderBehaviour) (text : Str)
    (configInput : Option DiscordMathImageConfig) :
    segmentsConcat (buildDiscordMathSegments codeSpanIndex render text configInput).segments =
        text ∧
      tokensConcat
          (tokenizeMathText codeSpanIndex text (resolveDiscordMathImageConfig configInput)) =
        text := by
  refine ⟨?_, tokenizeMathText_concat _ _ _⟩
  rw [buildDiscordMathSegments]
  simp only []
  split
  · simp [segmentsConcat, segmentStr]
  · split
    · simp [segmentsConcat, segmentStr]
    · split
      · simp [segmentsConcat, segmentStr]
      · rw [buildSegmentsLoop_concat, tokenizeMathText_concat]
        simp [segmentsConcat]

/-- Whether a segment is a text segment. -/
def isTextSegment : DiscordMathSegment → Bool
  | .text _ => true
  | .mathImage _ _ _ _ => false

/-- Whether the head of a segment list is a text segment. -/
def headIsTextSegment : List DiscordMathSegment → Bool
  | DiscordMathSegment.text _ :: _ => true
  | _ => false

/-- No two adjacent segments are both text segments. -/
def noTwoConsecutiveTextSegments : List DiscordMathSegment → Bool
  | [] => true
  | seg :: rest => (!(isTextSegment seg && headIsTextSegment rest)) &&
      noTwoConsecutiveTextSegments rest

/-- Every text segment has non-empty content. -/
def noEmptyTextSegment (segments : List DiscordMathSegment) : Bool :=
  segments.all fun s =>
    match s with
    | .text t => !t.isEmpty
    | .mathImage _ _ _ _ => true

theorem appendMathTextSegment_nil_iff (segments : List DiscordMathSegment) (t : Str) :
    appendMathTextSegment segments t = [] ↔ segments = [] ∧ t = [] := by
  induction segments, t using appendMathTextSegment.induct with
  | case1 segments => simp [appendMathTextSegment]
  | case2 t ht => simp [appendMathTextSegment]; intro h; exact absurd h ht
  | case3 s t ht => simp [appendMathTextSegment]
  | case4 seg t ht h2 =>
    match seg with
    | .text s => exact absurd rfl (h2 s)
    | .mathImage ft e b n => simp [appendMathTextSegment]
  | case5 seg rest t ht h2 h3 ih =>
    have : appendMathTextSegment (seg :: rest) t = seg :: appendMathTextSegment rest t := by
      match rest with
      | [] => exact absurd rfl h3
      | r :: rs => cases seg <;> cases t <;> simp [appendMathTextSegment]
    rw [this]
    simp

theorem headIsTextSegment_append (segments : List DiscordMathSegment) (t : Str)
    (hseg : segments ≠ []) :
    headIsTextSegment (appendMathTextSegment segments t) = headIsTextSegment segments := by
  match segments, t with
  | seg :: rest, [] => simp [appendMathTextSegment]
  | [DiscordMathSegment.text s], t' :: ts => rfl
  | [DiscordMathSegment.mathImage ft e b n], t' :: ts => rfl
  | seg :: r :: rs, t' :: ts => cases seg <;> rfl

theorem headIsTextSegment_append_singleton (segments : List DiscordMathSegment)
    (s : DiscordMathSegment) (hseg : segments ≠ []) :
    headIsTextSegment (segments ++ [s]) = headIsTextSegment segments := by
  match segments with
  | seg :: rest => cases seg <;> rfl

theorem noTwoConsecutiveTextSegments_append (segments : List DiscordMathSegment) (t : Str)
    (h : noTwoConsecutiveTextSegments segments = true) :
    noTwoConsecutiveTextSegments (appendMathTextSegment segments t) = true := by
  induction segments, t using appendMathTextSegment.induct with
  | case1 segments => simpa [appendMathTextSegment] using h
  | case2 t ht => simp [appendMathTextSegment, noTwoConsecutiveTextSegments, headIsTextSegment]
  | case3 s t ht => simp [appendMathTextSegment, noTwoConsecutiveTextSegments, headIsTextSegment]
  | case4 seg t ht h2 =>
    match seg with
    | .text s => exact absurd rfl (h2 s)
    | .mathImage ft e b n =>
      simp [appendMathTextSegment, noTwoConsecutiveTextSegments, headIsTextSegment,
        isTextSegment]
  | case5 seg rest t ht h2 h3 ih =>
    have heq : appendMathTextSegment (seg :: rest) t = seg :: appendMathTextSegment rest t := by
      match rest with
      | [] => exact absurd rfl h3
      | r :: rs => cases seg <;> cases t <;> simp [appendMathTextSegment]
    rw [heq]
    simp only [noTwoConsecutiveTextSegments] at h ⊢
    rw [Bool.and_eq_true] at h ⊢
    refine ⟨?_, ih h.2⟩
    rw [headIsTextSegment_append rest t h3]
    exact h.1

theorem noTwoConsecutiveTextSegments_push (segments : List DiscordMathSegment)
    (s : DiscordMathSegment) (hs : isTextSegment s = false)
    (h : noTwoConsecutiveTextSegments segments = true) :
    noTwoConsecutiveTextSegments (segments ++ [s]) = true := by
  induction segments with
  | nil => simp [noTwoConsecutiveTextSegments, hs, headIsTextSegment]
  | cons seg rest ih =>
    rw [List.cons_append]
    simp only [noTwoConsecutiveTextSegments] at h ⊢
    rw [Bool.and_eq_true] at h ⊢
    refine ⟨?_, ih h.2⟩
    match rest with
    | [] =>
      cases s with
      | text t => simp [isTextSegment] at hs
      | mathImage ft e b n => simp [headIsTextSegment]
    | r :: rs =>
      rw [headIsTextSegment_append_singleton _ _ (by simp)]
      exact h.1

theorem noEmptyTextSegment_append (segments : List DiscordMathSegment) (t : Str)
    (h : noEmptyTextSegment segments = true) :
    noEmptyTextSegment (appendMathTextSegment segments t) = true := by
  induction segments, t using appendMathTextSegment.induct with
  | case1 segments => simpa [appendMathTextSegment] using h
  | case2 t ht =>
    simp [appendMathTextSegment, noEmptyTextSegment]
    intro hemp
    exact ht hemp
  | case3 s t ht =>
    have : (s ++ t : Str) ≠ [] := by
      intro hemp
      exact ht (List.append_eq_nil.mp hemp).2
    simp [appendMathTextSegment, noEmptyTextSegment, this]
  | case4 seg t ht h2 =>
    match seg with
    | .text s => exact absurd rfl (h2 s)
    | .mathImage ft e b n =>
      simp [appendMathTextSegment, noEmptyTextSegment]
      intro hemp
      exact ht hemp
  | case5 seg rest t ht h2 h3 ih =>
    have heq : appendMathTextSegment (seg :: rest) t = seg :: appendMathTextSegment rest t := by
      match rest with
      | [] => exact absurd rfl h3
      | r :: rs => cases seg <;> cases t <;> simp [appendMathTextSegment]
    rw [heq]
    simp only [noEmptyTextSegment, List.all_cons, Bool.and_eq_true] at h ⊢
    exact ⟨h.1, ih h.2⟩

theorem noEmptyTextSegment_push (segments : List DiscordMathSegment)
    (formulaText expression : Str) (buf : List Nat) (name : Str)
    (h : noEmptyTextSegment segments = true) :
    noEmptyTextSegment
      (segments ++ [DiscordMathSegment.mathImage formulaText expression buf name]) = true := by
  simp only [noEmptyTextSegment, List.all_append, Bool.and_eq_true] at h ⊢
  exact ⟨h, by simp⟩

theorem buildSegmentsLoop_wellFormed (config : ResolvedDiscordMathImageConfig)
    (render : RenderBehaviour) :
    ∀ (tokens : List DiscordMathToken) (segments : List DiscordMathSegment)
      (imageCount : Nat) (calls : List Str),
      noTwoConsecutiveTextSegments segments = true →
      noEmptyTextSegment segments = true →
      noTwoConsecutiveTextSegments
          (buildSegmentsLoop config render tokens segments imageCount calls).1 = true ∧
        noEmptyTextSegment
          (buildSegmentsLoop config render tokens segments imageCount calls).1 = true := by
  intro tokens
  induction tokens with
  | nil =>
    intro segments imageCount calls h1 h2
    exact ⟨h1, h2⟩
  | cons tok rest ih =>
    intro segments imageCount calls h1 h2
    cases tok with
    | text t =>
      simp only [buildSegmentsLoop]
      exact ih _ _ _ (noTwoConsecutiveTextSegments_append _ _ h1)
        (noEmptyTextSegment_append _ _ h2)
    | formula raw e =>
      simp only [buildSegmentsLoop]
      split
      · exact ih _ _ _ (noTwoConsecutiveTextSegments_append _ _ h1)
          (noEmptyTextSegment_append _ _ h2)
      · split
        · exact ih _ _ _ (noTwoConsecutiveTextSegments_append _ _ h1)
            (noEmptyTextSegment_append _ _ h2)
        · split
          · exact ih _ _ _ (noTwoConsecutiveTextSegments_push _ _ rfl h1)
              (noEmptyTextSegment_push _ _ _ _ _ h2)
          · exact ih _ _ _ (noTwoConsecutiveTextSegments_append _ _ h1)
              (noEmptyTextSegment_append _ _ h2)

/-- C10 --- Output well-formedness: the segment list is never empty, never
contains two consecutive text segments, and (apart from the single
short-circuit segment, which is the input verbatim and empty only for empty
input) no text segment has empty content. -/
theorem C10_output_well_formed (codeSpanIndex : Str → Nat → Bool)
    (render : RenderBehaviour) (text : Str)
    (configInput : Option DiscordMathImageConfig) :
    (buildDiscordMathSegments codeSpanIndex render text configInput).segments ≠ [] ∧
      noTwoConsecutiveTextSegments
          (buildDiscordMathSegments codeSpanIndex render text configInput).segments = true ∧
      (text = [] →
        (buildDiscordMathSegments codeSpanIndex render text configInput).segments =
          [DiscordMathSegment.text []]) ∧
      (text ≠ [] →
        noEmptyTextSegment
          (buildDiscordMathSegments codeSpanIndex render text configInput).segments = true) := by
  rw [buildDiscordMathSegments]
  simp only []
  split
  · rename_i hshort
    refine ⟨by simp, by simp [noTwoConsecutiveTextSegments, headIsTextSegment], ?_, ?_⟩
    · intro h
      rw [h]
    · intro h
      simp [noEmptyTextSegment, h]
  · rename_i hshort
    have htext : ¬ text = [] := by
      intro h
      subst h
      simp at hshort
    split
    · refine ⟨by simp, by simp [noTwoConsecutiveTextSegments, headIsTextSegment],
        fun h => absurd h htext, fun _ => by simp [noEmptyTextSegment, htext]⟩
    · split
      · refine ⟨by simp, by simp [noTwoConsecutiveTextSegments, headIsTextSegment],
          fun h => absurd h htext, fun _ => by simp [noEmptyTextSegment, htext]⟩
      · rename_i hne
        obtain ⟨h1, h2⟩ := buildSegmentsLoop_wellFormed
          (resolveDiscordMathImageConfig configInput) render
          (tokenizeMathText codeSpanIndex text (resolveDiscordMathImageConfig configInput))
          [] 0 [] rfl rfl
        exact ⟨by simpa using hne, h1, fun h => absurd h htext, fun _ => h2⟩

theorem normalizePositiveInt_pos {value : Option JsNumber} {fallback : Nat}
    (h : 0 < fallback) : 0 < normalizePositiveInt value fallback := by
  match value with
  | none => exact h
  | some .nan => exact h
  | some .posInf => exact h
  | some .negInf => exact h
  | some (.finite q) =>
    simp only [normalizePositiveInt]
    split
    · rename_i hpos
      omega
    · exact h

/-- C8 (counterexample) --- `3.5` (`7/2`) is not an integer, so under the
claim it is an invalid value for `maxExpressionsPerReply` and must fall back
to the default `8`; the code instead coerces it with `Math.floor` to `3`. -/
theorem C8_counterexample :
    (resolveDiscordMathImageConfig
          (some { maxExpressionsPerReply := some (JsNumber.finite (7 / 2)) })).maxExpressionsPerReply
        = 3 ∧
      (∀ n : ℤ, (7 : ℚ) / 2 ≠ (n : ℚ)) ∧
      (3 : Nat) ≠ DEFAULT_MAX_EXPRESSIONS := by
  refine ⟨?_, ?_, by decide⟩
  · norm_num [resolveDiscordMathImageConfig, normalizePositiveInt]
    decide
  · intro n h
    have h2 : (7 : ℚ) = (n : ℚ) * 2 := (div_eq_iff (by norm_num)).mp h
    have h3 : (7 : ℤ) = n * 2 := by exact_mod_cast h2
    omega

/-- C8 (amended) --- Config normalization: the three resolved numeric fields
are always positive integers and normalization is a total function (never
raises); a missing value, a non-finite value (`NaN`, `±Infinity`) or a finite
value whose floor is not positive falls back to the fixed defaults 8, 1200 and
2048 respectively; but a finite non-integral value with positive floor is
coerced to its floor rather than replaced by the default. -/
theorem C8_config_normalization (configInput : Option DiscordMathImageConfig) :
    0 < (resolveDiscordMathImageConfig configInput).maxExpressionsPerReply ∧
      0 < (resolveDiscordMathImageConfig configInput).maxCharsPerExpression ∧
      0 < (resolveDiscordMathImageConfig configInput).maxImageWidthPx ∧
      (∀ fallback : Nat,
        normalizePositiveInt none fallback = fallback ∧
          normalizePositiveInt (some .nan) fallback = fallback ∧
          normalizePositiveInt (some .posInf) fallback = fallback ∧
          normalizePositiveInt (some .negInf) fallback = fallback) ∧
      (∀ (q : ℚ) (fallback : Nat), ⌊q⌋ ≤ 0 →
        normalizePositiveInt (some (.finite q)) fallback = fallback) ∧
      (∀ (q : ℚ) (fallback : Nat), 0 < ⌊q⌋ →
        normalizePositiveInt (some (.finite q)) fallback = ⌊q⌋.toNat) ∧
      (resolveDiscordMathImageConfig none).maxExpressionsPerReply =
          DEFAULT_MAX_EXPRESSIONS ∧
      (resolveDiscordMathImageConfig none).maxCharsPerExpression = DEFAULT_MAX_CHARS ∧
      (resolveDiscordMathImageConfig none).maxImageWidthPx = DEFAULT_MAX_IMAGE_WIDTH_PX := by
  refine ⟨normalizePositiveInt_pos (by simp [DEFAULT_MAX_EXPRESSIONS]),
    normalizePositiveInt_pos (by simp [DEFAULT_MAX_CHARS]),
    normalizePositiveInt_pos (by simp [DEFAULT_MAX_IMAGE_WIDTH_PX]),
    fun fallback => ⟨rfl, rfl, rfl, rfl⟩, ?_, ?_, rfl, rfl, rfl⟩
  · intro q fallback h
    simp only [normalizePositiveInt]
    split
    · rename_i hpos
      omega
    · rfl
  · intro q fallback h
    simp only [normalizePositiveInt]
    split
    · rfl
    · rename_i hpos
      omega

/-- C5 --- Scanner characterization: for every text, start position, non-empty
active delimiter set and code predicate, `findNextOpening` returns an
occurrence that is valid (matching, not inside code), at or after `fromIndex`,
and leftmost across all delimiter kinds; and it returns `none` exactly when no
active delimiter has a valid occurrence before the end of the text. -/
theorem C5_scanner_characterization (text : Str) (fromIndex : Nat)
    (delimiters : List DelimiterSpec) (inside : Option (Nat → Bool))
    (hone : delimiters ≠ []) (hne : ∀ d ∈ delimiters, d.openMarker ≠ []) :
    (∀ (i : Nat) (d : DelimiterSpec),
      findNextOpening text fromIndex delimiters inside = some (i, d) →
        d ∈ delimiters ∧ fromIndex ≤ i ∧ validOcc text d.openMarker inside i ∧
          ∀ d' ∈ delimiters, ∀ j, fromIndex ≤ j → j < i →
            ¬ validOcc text d'.openMarker inside j) ∧
      (findNextOpening text fromIndex delimiters inside = none ↔
        ∀ d ∈ delimiters, ∀ j, fromIndex ≤ j →
          ¬ validOcc text d.openMarker inside j) := by
  constructor
  · intro i d h
    obtain ⟨hmem, hscan, hmin⟩ := findNextOpening_some_facts h
    obtain ⟨hge, hval, hminscan⟩ := scanForMarker_some_facts hscan
    refine ⟨hmem, hge, hval, fun d' hd' j hj1 hj2 hv => ?_⟩
    obtain ⟨i', hi'⟩ := scanForMarker_complete (hne d' hd') hj1 hv
    obtain ⟨hge', hval', hmin'⟩ := scanForMarker_some_facts hi'
    have h1 : i ≤ i' := hmin d' hd' i' hi'
    rcases Nat.lt_or_ge j i' with hlt | hge2
    · exact hmin' j hj1 hlt hv
    · omega
  · constructor
    · intro h d hd j hj hv
      have := scanForMarker_none_facts (hne d hd) (findNextOpening_none_facts h d hd) j hj
      exact this hv
    · intro h
      cases hcase : findNextOpening text fromIndex delimiters inside with
      | none => rfl
      | some p =>
        obtain ⟨hmem, hscan, -⟩ := findNextOpening_some_facts hcase
        obtain ⟨hge, hval, -⟩ := scanForMarker_some_facts hscan
        exact absurd hval (h p.2 hmem p.1 hge)

/-- Witness for C5 at a concrete instance (the fixed delimiter set, no code
predicate, the text `"x"`). -/
theorem C5_scanner_characterization_witness :
    DELIMITER_SPECS ≠ [] ∧ (∀ d ∈ DELIMITER_SPECS, d.openMarker ≠ []) ∧
      ((∀ (i : Nat) (d : DelimiterSpec),
        findNextOpening ['x'] 0 DELIMITER_SPECS none = some (i, d) →
          d ∈ DELIMITER_SPECS ∧ 0 ≤ i ∧ validOcc ['x'] d.openMarker none i ∧
            ∀ d' ∈ DELIMITER_SPECS, ∀ j, 0 ≤ j → j < i →
              ¬ validOcc ['x'] d'.openMarker none j) ∧
        (findNextOpening ['x'] 0 DELIMITER_SPECS none = none ↔
          ∀ d ∈ DELIMITER_SPECS, ∀ j, 0 ≤ j →
            ¬ validOcc ['x'] d.openMarker none j)) :=
  ⟨by decide, by decide,
    C5_scanner_characterization ['x'] 0 DELIMITER_SPECS none (by decide) (by decide)⟩

/-- C9 (counterexample) --- the `$$` occurrence at index 1 of `"\$$x$$"` is
immediately preceded by a backslash (escaped), yet `findNextOpening` returns
it: the scanner performs no escape check. -/
theorem C9_counterexample :
    findNextOpening ['\\', '$', '$', 'x', '$', '$'] 0 DELIMITER_SPECS none =
        some (1,
          { kind := .doubleDollar, openMarker := ['$', '$'], closeMarker := ['$', '$'] }) ∧
      (['\\', '$', '$', 'x', '$', '$'] : Str)[0]? = some '\\' := by
  constructor
  · have h1 : scanForMarker ['\\', '$', '$', 'x', '$', '$'] ['$', '$'] none 0 = some 1 :=
      scanForMarker_found (by decide) (by decide) (by decide)
    have h2 : scanForMarker ['\\', '$', '$', 'x', '$', '$'] ['\\', '['] none 0 = none :=
      scanForMarker_nomatch (by decide) (by decide)
    simp [findNextOpening, DELIMITER_SPECS, findNextOpeningStep, h1, h2]
  · rfl

/-- C9 (amended) --- the scanner applies no escape filtering: an open-marker
occurrence that is immediately preceded by a backslash is still returned by
`findNextOpening` whenever it is the leftmost valid (matching, non-code)
occurrence; consequently escaped delimiters can start formula tokens. -/
theorem C9_no_escape_filtering (text : Str) (fromIndex : Nat)
    (delimiters : List DelimiterSpec) (inside : Option (Nat → Bool))
    (hne : ∀ d ∈ delimiters, d.openMarker ≠ [])
    (i : Nat) (d : DelimiterSpec) (hd : d ∈ delimiters)
    (hesc : 0 < i ∧ text[i - 1]? = some '\\')
    (hfrom : fromIndex ≤ i) (hv : validOcc text d.openMarker inside i)
    (hmin : ∀ d' ∈ delimiters, ∀ j, fromIndex ≤ j → j < i →
      ¬ validOcc text d'.openMarker inside j) :
    ∃ d', d' ∈ delimiters ∧
      findNextOpening text fromIndex delimiters inside = some (i, d') := by
  obtain ⟨i₀, hi₀⟩ := scanForMarker_complete (hne d hd) hfrom hv
  obtain ⟨hge₀, hval₀, hmin₀⟩ := scanForMarker_some_facts hi₀
  have hi₀eq : i₀ = i := by
    rcases Nat.lt_or_ge i₀ i with hlt | hge
    · exact absurd hval₀ (hmin d hd i₀ hge₀ hlt)
    · rcases Nat.lt_or_ge i i₀ with hlt2 | hge2
      · exact absurd hv (hmin₀ i hfrom hlt2)
      · omega
  subst hi₀eq
  cases hcase : findNextOpening text fromIndex delimiters inside with
  | none =>
    rw [findNextOpening_none_facts hcase d hd] at hi₀
    exact absurd hi₀ (by simp)
  | some p =>
    obtain ⟨pi, pd⟩ := p
    obtain ⟨hmem, hscan, hminall⟩ := findNextOpening_some_facts hcase
    obtain ⟨hge', hval', hmin'⟩ := scanForMarker_some_facts hscan
    have h1 : pi ≤ i₀ := hminall d hd i₀ hi₀
    have h2 : pi = i₀ := by
      rcases Nat.lt_or_ge pi i₀ with hlt | hge
      · exact absurd hval' (hmin pd hmem pi hge' hlt)
      · omega
    subst h2
    exact ⟨pd, hmem, rfl⟩

/-- Witness for C9 (amended) at the concrete escaped input `"\$$x$$"`. -/
theorem C9_no_escape_filtering_witness :
    (∀ d ∈ DELIMITER_SPECS, d.openMarker ≠ []) ∧
      ({ kind := .doubleDollar, openMarker := ['$', '$'], closeMarker := ['$', '$'] }
          : DelimiterSpec) ∈ DELIMITER_SPECS ∧
      (0 < 1 ∧ (['\\', '$', '$', 'x', '$', '$'] : Str)[1 - 1]? = some '\\') ∧
      0 ≤ 1 ∧
      validOcc ['\\', '$', '$', 'x', '$', '$'] ['$', '$'] none 1 ∧
      (∀ d' ∈ DELIMITER_SPECS, ∀ j, 0 ≤ j → j < 1 →
        ¬ validOcc ['\\', '$', '$', 'x', '$', '$'] d'.openMarker none j) ∧
      (∃ d', d' ∈ DELIMITER_SPECS ∧
        findNextOpening ['\\', '$', '$', 'x', '$', '$'] 0 DELIMITER_SPECS none =
          some (1, d')) :=
  ⟨by decide, by decide, by decide, by decide, by decide, by decide,
    C9_no_escape_filtering ['\\', '$', '$', 'x', '$', '$'] 0 DELIMITER_SPECS none
      (by decide) 1
      { kind := .doubleDollar, openMarker := ['$', '$'], closeMarker := ['$', '$'] }
      (by decide) (by decide) (by decide) (by decide) (by decide)⟩

/-- Where a formula token can come from: a delimiter of the active set, a
valid (matching, non-excluded) open-marker occurrence at `i`, a valid
close-marker occurrence at `c` at or after the expression start, with
`raw`/`expression` the corresponding slices of the text. -/
def formulaProvenance (text : Str) (delimiters : List DelimiterSpec)
    (inside : Option (Nat → Bool)) (raw expression : Str) : Prop :=
  ∃ (d : DelimiterSpec) (i c : Nat),
    d ∈ delimiters ∧
    validOcc text d.openMarker inside i ∧
    validOcc text d.closeMarker inside c ∧
    i + d.openMarker.length ≤ c ∧
    raw = sliceStr text i (c + d.closeMarker.length) ∧
    expression = sliceStr text (i + d.openMarker.length) c

theorem mem_appendTextToken_formula {tokens : List DiscordMathToken} {t : Str}
    {raw e : Str}
    (h : DiscordMathToken.formula raw e ∈ appendTextToken tokens t) :
    DiscordMathToken.formula raw e ∈ tokens := by
  induction tokens, t using appendTextToken.induct with
  | case1 tokens => simpa [appendTextToken] using h
  | case2 t ht => simp [appendTextToken] at h
  | case3 s t ht =>
    simp [appendTextToken] at h
  | case4 tok t ht h2 =>
    match tok with
    | .text s => exact absurd rfl (h2 s)
    | .formula r x =>
      simp [appendTextToken] at h
      simp [h]
  | case5 tok rest t ht h2 h3 ih =>
    have heq : appendTextToken (tok :: rest) t = tok :: appendTextToken rest t := by
      match rest with
      | [] => exact absurd rfl h3
      | r :: rs => cases tok <;> cases t <;> simp [appendTextToken]
    rw [heq] at h
    rcases List.mem_cons.mp h with h | h
    · exact h ▸ List.mem_cons_self _ _
    · exact List.mem_cons_of_mem _ (ih h)

theorem tokenizeLoop_formula_provenance {text : Str} {delimiters : List DelimiterSpec}
    {hne : ∀ d ∈ delimiters, d.openMarker ≠ []} {inside : Option (Nat → Bool)} :
    ∀ (tokens : List DiscordMathToken) (cursor : Nat),
      (∀ raw e, DiscordMathToken.formula raw e ∈ tokens →
        formulaProvenance text delimiters inside raw e) →
      ∀ raw e,
        DiscordMathToken.formula raw e ∈ tokenizeLoop text delimiters hne inside tokens cursor →
        formulaProvenance text delimiters inside raw e := by
  intro tokens cursor
  induction tokens, cursor using tokenizeLoop.induct text delimiters hne inside with
  | case1 tokens cursor hcur hop =>
    intro hacc raw e hmem
    rw [tokenizeLoop_noOpen hcur hop] at hmem
    exact hacc raw e (mem_appendTextToken_formula hmem)
  | case2 tokens cursor hcur opening hop es hcl =>
    intro hacc raw e hmem
    rw [tokenizeLoop_noClose hcur hop hcl] at hmem
    have := mem_appendTextToken_formula hmem
    refine hacc raw e ?_
    split at this
    · exact mem_appendTextToken_formula this
    · exact this
  | case3 tokens cursor hcur opening hop tokens1 es index hcl expression raw0 ih =>
    intro hacc raw e hmem
    rw [tokenizeLoop_formula hcur hop hcl] at hmem
    refine ih ?_ raw e hmem
    intro raw' e' hmem'
    rcases List.mem_append.mp hmem' with hmem' | hmem'
    · refine hacc raw' e' ?_
      by_cases hgt : opening.1 > cursor
      · rw [show tokens1 = appendTextToken tokens (sliceStr text cursor opening.1) from
          dif_pos hgt] at hmem'
        exact mem_appendTextToken_formula hmem'
      · rwa [show tokens1 = tokens from dif_neg hgt] at hmem'
    · simp only [List.mem_singleton] at hmem'
      obtain ⟨rfl, rfl⟩ : raw' = sliceStr text opening.1
            (index + opening.2.closeMarker.length) ∧
          e' = sliceStr text (opening.1 + opening.2.openMarker.length) index := by
        constructor <;> { injection hmem' with h1 h2 }
      have hopen := (findNextOpening_some_facts hop).2.1
      have hmemd := (findNextOpening_some_facts hop).1
      have hovalid := (scanForMarker_some_facts hopen).2.1
      have hcvalid := (scanForMarker_some_facts hcl).2.1
      have hle := (scanForMarker_some_facts hcl).1
      exact ⟨opening.2, opening.1, index, hmemd, hovalid, hcvalid, hle, rfl, rfl⟩
  | case4 tokens cursor hcur =>
    intro hacc raw e hmem
    rw [tokenizeLoop_stop hcur] at hmem
    exact hacc raw e hmem

/-- Every formula token produced by the tokenizer comes from a valid
delimiter pair of the active set. -/
theorem tokenizeMathText_formula_provenance (codeSpanIndex : Str → Nat → Bool)
    (text : Str) (config : ResolvedDiscordMathImageConfig) {raw e : Str}
    (h : DiscordMathToken.formula raw e ∈ tokenizeMathText codeSpanIndex text config) :
    formulaProvenance text (activeDelimiters config)
      (if config.excludeCode then some (codeSpanIndex text) else none) raw e := by
  rw [tokenizeMathText] at h
  simp only [] at h
  split at h
  · simp at h
  · by_cases hex : config.excludeCode = true
    · simp only [hex, if_true] at h ⊢
      split at h
      · simp at h
      · exact tokenizeLoop_formula_provenance [] 0 (by simp) raw e h
    · have hfalse : config.excludeCode = false := by
        cases hc : config.excludeCode
        · rfl
        · exact absurd hc hex
      rw [hfalse] at h ⊢
      simp only [Bool.false_eq_true, if_false] at h ⊢
      split at h
      · simp at h
      · exact tokenizeLoop_formula_provenance [] 0 (by simp) raw e h

theorem mem_appendMathTextSegment_mathImage {segments : List DiscordMathSegment}
    {t ft e : Str} {buf : List Nat} {name : Str}
    (h : DiscordMathSegment.mathImage ft e buf name ∈ appendMathTextSegment segments t) :
    DiscordMathSegment.mathImage ft e buf name ∈ segments := by
  induction segments, t using appendMathTextSegment.induct with
  | case1 segments => simpa [appendMathTextSegment] using h
  | case2 t ht => simp [appendMathTextSegment] at h
  | case3 s t ht => simp [appendMathTextSegment] at h
  | case4 seg t ht h2 =>
    match seg with
    | .text s => exact absurd rfl (h2 s)
    | .mathImage ft' e' b' n' =>
      simp [appendMathTextSegment] at h
      simp [h]
  | case5 seg rest t ht h2 h3 ih =>
    have heq : appendMathTextSegment (seg :: rest) t = seg :: appendMathTextSegment rest t := by
      match rest with
      | [] => exact absurd rfl h3
      | r :: rs => cases seg <;> cases t <;> simp [appendMathTextSegment]
    rw [heq] at h
    rcases List.mem_cons.mp h with h | h
    · exact h ▸ List.mem_cons_self _ _
    · exact List.mem_cons_of_mem _ (ih h)

/-- Every math-image segment the build loop adds corresponds to a formula
token of the processed token list (with `formulaText` the token's `raw` and
the same expression). -/
theorem buildSegmentsLoop_mathImage_provenance (config : ResolvedDiscordMathImageConfig)
    (render : RenderBehaviour) :
    ∀ (tokens : List DiscordMathToken) (segments : List DiscordMathSegment)
      (imageCount : Nat) (calls : List Str) {ft e : Str} {buf : List Nat} {name : Str},
      DiscordMathSegment.mathImage ft e buf name ∈
        (buildSegmentsLoop config render tokens segments imageCount calls).1 →
      DiscordMathSegment.mathImage ft e buf name ∈ segments ∨
        DiscordMathToken.formula ft e ∈ tokens := by
  intro tokens
  induction tokens with
  | nil =>
    intro segments imageCount calls ft e buf name h
    exact Or.inl h
  | cons tok rest ih =>
    intro segments imageCount calls ft e buf name h
    cases tok with
    | text t =>
      simp only [buildSegmentsLoop] at h
      rcases ih _ _ _ h with h | h
      · exact Or.inl (mem_appendMathTextSegment_mathImage h)
      · exact Or.inr (List.mem_cons_of_mem _ h)
    | formula raw e' =>
      simp only [buildSegmentsLoop] at h
      split at h
      · rcases ih _ _ _ h with h | h
        · exact Or.inl (mem_appendMathTextSegment_mathImage h)
        · exact Or.inr (List.mem_cons_of_mem _ h)
      · split at h
        · rcases ih _ _ _ h with h | h
          · exact Or.inl (mem_appendMathTextSegment_mathImage h)
          · exact Or.inr (List.mem_cons_of_mem _ h)
        · split at h
          · rcases ih _ _ _ h with h | h
            · rcases List.mem_append.mp h with h | h
              · exact Or.inl h
              · simp only [List.mem_singleton] at h
                obtain ⟨rfl, rfl⟩ : ft = raw ∧ e = e' := by
                  constructor <;> { injection h with h1 h2 }
                exact Or.inr (List.mem_cons_self _ _)
            · exact Or.inr (List.mem_cons_of_mem _ h)
          · rcases ih _ _ _ h with h | h
            · exact Or.inl (mem_appendMathTextSegment_mathImage h)
            · exact Or.inr (List.mem_cons_of_mem _ h)

/-- A formula slice pair lying entirely outside the code spans: some active
delimiter matches its open marker at `i` and close marker at `c`, neither
offset is classified as inside code, and the raw/expression strings are the
corresponding slices. -/
def validFormulaSlices (codeSpanIndex : Str → Nat → Bool) (text : Str)
    (delimiters : List DelimiterSpec) (raw e : Str) : Prop :=
  ∃ (d : DelimiterSpec) (i c : Nat),
    d ∈ delimiters ∧
    matchAt d.openMarker text i = true ∧ codeSpanIndex text i = false ∧
    matchAt d.closeMarker text c = true ∧ codeSpanIndex text c = false ∧
    i + d.openMarker.length ≤ c ∧
    raw = sliceStr text i (c + d.closeMarker.length) ∧
    e = sliceStr text (i + d.openMarker.length) c

theorem formulaProvenance_to_slices {codeSpanIndex : Str → Nat → Bool} {text : Str}
    {delimiters : List DelimiterSpec} {raw e : Str}
    (h : formulaProvenance text delimiters (some (codeSpanIndex text)) raw e) :
    validFormulaSlices codeSpanIndex text delimiters raw e := by
  obtain ⟨d, i, c, hd, ⟨hmo, heo⟩, ⟨hmc, hec⟩, hle, hraw, he⟩ := h
  exact ⟨d, i, c, hd, hmo, by simpa [excludedAt] using heo, hmc,
    by simpa [excludedAt] using hec, hle, hraw, he⟩

/-- C4 --- Code-span exclusion: with `excludeCode` enabled, (a) every formula
token the tokenizer produces comes from a delimiter pair both of whose marker
offsets are classified *outside* code (so a pair inside a code span never
produces a formula token), (b) every math-image segment of the build result
likewise comes from such a pair, and (c) skipping excluded candidates never
terminates the scan: any valid occurrence at or after the start keeps
`findNextOpening` from returning `none`. -/
theorem C4_code_span_exclusion (codeSpanIndex : Str → Nat → Bool)
    (render : RenderBehaviour) (text : Str)
    (configInput : Option DiscordMathImageConfig)
    (hex : (resolveDiscordMathImageConfig configInput).excludeCode = true) :
    (∀ raw e,
      DiscordMathToken.formula raw e ∈
          tokenizeMathText codeSpanIndex text (resolveDiscordMathImageConfig configInput) →
        validFormulaSlices codeSpanIndex text
          (activeDelimiters (resolveDiscordMathImageConfig configInput)) raw e) ∧
      (∀ ft e (buf : List Nat) name,
        DiscordMathSegment.mathImage ft e buf name ∈
            (buildDiscordMathSegments codeSpanIndex render text configInput).segments →
          validFormulaSlices codeSpanIndex text
            (activeDelimiters (resolveDiscordMathImageConfig configInput)) ft e) ∧
      (∀ d ∈ activeDelimiters (resolveDiscordMathImageConfig configInput),
        ∀ fromIndex j, fromIndex ≤ j → matchAt d.openMarker text j = true →
          codeSpanIndex text j = false →
          findNextOpening text fromIndex
              (activeDelimiters (resolveDiscordMathImageConfig configInput))
              (some (codeSpanIndex text)) ≠ none) := by
  have htok : ∀ raw e,
      DiscordMathToken.formula raw e ∈
          tokenizeMathText codeSpanIndex text (resolveDiscordMathImageConfig configInput) →
        validFormulaSlices codeSpanIndex text
          (activeDelimiters (resolveDiscordMathImageConfig configInput)) raw e := by
    intro raw e h
    have := tokenizeMathText_formula_provenance codeSpanIndex text _ h
    rw [hex, if_pos rfl] at this
    exact formulaProvenance_to_slices this
  refine ⟨htok, ?_, ?_⟩
  · intro ft e buf name h
    rw [buildDiscordMathSegments] at h
    simp only [] at h
    split at h
    · simp at h
    · split at h
      · simp at h
      · split at h
        · simp at h
        · rcases buildSegmentsLoop_mathImage_provenance _ render _ [] 0 [] h with h | h
          · simp at h
          · exact htok ft e h
  · intro d hd fromIndex j hj hm hc
    exact findNextOpening_complete (activeDelimiters_open_ne_nil _ d hd) hd hj
      ⟨hm, by simpa [excludedAt] using hc⟩

/-- Witness for C4 at a concrete instance (default configuration, a code
predicate marking positions 0–7 of ```` "`$$a$$` $$b$$" ```` as inside the
inline code span). -/
theorem C4_code_span_exclusion_witness :
    (resolveDiscordMathImageConfig none).excludeCode = true ∧
      ((∀ raw e,
        DiscordMathToken.formula raw e ∈
            tokenizeMathText (fun _ i => decide (i < 8))
              ['`', '$', '$', 'a', '$', '$', '`', ' ', '$', '$', 'b', '$', '$']
              (resolveDiscordMathImageConfig none) →
          validFormulaSlices (fun _ i => decide (i < 8))
            ['`', '$', '$', 'a', '$', '$', '`', ' ', '$', '$', 'b', '$', '$']
            (activeDelimiters (resolveDiscordMathImageConfig none)) raw e) ∧
        (∀ ft e (buf : List Nat) name,
          DiscordMathSegment.mathImage ft e buf name ∈
              (buildDiscordMathSegments (fun _ i => decide (i < 8))
                (fun _ _ _ => some [])
                ['`', '$', '$', 'a', '$', '$', '`', ' ', '$', '$', 'b', '$', '$']
                none).segments →
            validFormulaSlices (fun _ i => decide (i < 8))
              ['`', '$', '$', 'a', '$', '$', '`', ' ', '$', '$', 'b', '$', '$']
              (activeDelimiters (resolveDiscordMathImageConfig none)) ft e) ∧
        (∀ d ∈ activeDelimiters (resolveDiscordMathImageConfig none),
          ∀ fromIndex j, fromIndex ≤ j →
            matchAt d.openMarker
                ['`', '$', '$', 'a', '$', '$', '`', ' ', '$', '$', 'b', '$', '$'] j = true →
            (fun (_ : Str) i => decide (i < 8))
                ['`', '$', '$', 'a', '$', '$', '`', ' ', '$', '$', 'b', '$', '$'] j = false →
            findNextOpening ['`', '$', '$', 'a', '$', '$', '`', ' ', '$', '$', 'b', '$', '$']
                fromIndex (activeDelimiters (resolveDiscordMathImageConfig none))
                (some ((fun (_ : Str) i => decide (i < 8))
                  ['`', '$', '$', 'a', '$', '$', '`', ' ', '$', '$', 'b', '$', '$'])) ≠
              none)) :=
  ⟨rfl,
    C4_code_span_exclusion (fun _ i => decide (i < 8)) (fun _ _ _ => some [])
      ['`', '$', '$', 'a', '$', '$', '`', ' ', '$', '$', 'b', '$', '$'] none rfl⟩

/-- C7 --- Unmatched-opener policy: when a valid opening marker is found but
no valid closing occurrence exists at or after the expression start, the
tokenizer appends the entire remainder of the text from the opening marker
(merging with a trailing text token via `appendTextToken`) and returns without
re-scanning the remainder: the equation's right-hand side contains no further
recursion and no further scan. -/
theorem C7_unmatched_opener (text : Str) (delimiters : List DelimiterSpec)
    (hne : ∀ d ∈ delimiters, d.openMarker ≠ []) (inside : Option (Nat → Bool))
    (tokens : List DiscordMathToken) (cursor : Nat) (opening : Nat × DelimiterSpec)
    (hcur : cursor < text.length)
    (hop : findNextOpening text cursor delimiters inside = some opening)
    (hnoclose : ∀ c, opening.1 + opening.2.openMarker.length ≤ c →
      ¬ validOcc text opening.2.closeMarker inside c) :
    tokenizeLoop text delimiters hne inside tokens cursor =
      appendTextToken
        (if opening.1 > cursor then appendTextToken tokens (sliceStr text cursor opening.1)
         else tokens)
        (text.drop opening.1) := by
  have hcl : findClosingIndex text (opening.1 + opening.2.openMarker.length) opening.2
      inside = none := by
    cases hcase : findClosingIndex text (opening.1 + opening.2.openMarker.length) opening.2
        inside with
    | none => rfl
    | some c =>
      obtain ⟨hge, hval, -⟩ := scanForMarker_some_facts hcase
      exact absurd hval (hnoclose c hge)
  exact tokenizeLoop_noClose hcur hop hcl

/-- Witness for C7 at the concrete input `"a$$b"` (an opening `$$` at index 1
with no closing `$$`): the whole remainder `"$$b"` becomes literal text. -/
theorem C7_unmatched_opener_witness :
    (∀ d ∈ DELIMITER_SPECS, d.openMarker ≠ []) ∧
      0 < (['a', '$', '$', 'b'] : Str).length ∧
      findNextOpening ['a', '$', '$', 'b'] 0 DELIMITER_SPECS none =
        some (1,
          { kind := .doubleDollar, openMarker := ['$', '$'], closeMarker := ['$', '$'] }) ∧
      (∀ c, 1 + 2 ≤ c →
        ¬ validOcc ['a', '$', '$', 'b'] ['$', '$'] none c) ∧
      tokenizeLoop ['a', '$', '$', 'b'] DELIMITER_SPECS delimiterSpecs_open_ne_nil none [] 0 =
        appendTextToken
          (if 1 > 0 then appendTextToken [] (sliceStr ['a', '$', '$', 'b'] 0 1) else [])
          (List.drop 1 ['a', '$', '$', 'b']) := by
  have hop : findNextOpening ['a', '$', '$', 'b'] 0 DELIMITER_SPECS none =
      some (1,
        { kind := .doubleDollar, openMarker := ['$', '$'], closeMarker := ['$', '$'] }) := by
    have h1 : scanForMarker ['a', '$', '$', 'b'] ['$', '$'] none 0 = some 1 :=
      scanForMarker_found (by decide) (by decide) (by decide)
    have h2 : scanForMarker ['a', '$', '$', 'b'] ['\\', '['] none 0 = none :=
      scanForMarker_nomatch (by decide) (by decide)
    simp [findNextOpening, DELIMITER_SPECS, findNextOpeningStep, h1, h2]
  have hnoclose : ∀ c, 1 + 2 ≤ c → ¬ validOcc ['a', '$', '$', 'b'] ['$', '$'] none c := by
    intro c hc hv
    have := matchAt_bound (by decide) hv.1
    simp at this
    omega
  exact ⟨delimiterSpecs_open_ne_nil, by decide, hop, hnoclose,
    C7_unmatched_opener ['a', '$', '$', 'b'] DELIMITER_SPECS delimiterSpecs_open_ne_nil none
      [] 0
      (1, { kind := .doubleDollar, openMarker := ['$', '$'], closeMarker := ['$', '$'] })
      (by decide) hop hnoclose⟩

/-- The `(rawText, expression)` pairs of the formula tokens of a token list,
in order. -/
def formulaPairs (tokens : List DiscordMathToken) : List (Str × Str) :=
  tokens.filterMap fun t =>
    match t with
    | .formula raw e => some (raw, e)
    | .text _ => none

/-- The `(formulaText, expression)` pairs of the math-image segments of a
segment list, in order. -/
def imagePairs (segments : List DiscordMathSegment) : List (Str × Str) :=
  segments.filterMap fun s =>
    match s with
    | .mathImage ft e _ _ => some (ft, e)
    | .text _ => none

/-- `raw` occurs verbatim inside some text segment of the list. -/
def appearsInTextSegment (segments : List DiscordMathSegment) (raw : Str) : Prop :=
  ∃ u v, DiscordMathSegment.text (u ++ raw ++ v) ∈ segments

theorem imagePairs_append (a b : List DiscordMathSegment) :
    imagePairs (a ++ b) = imagePairs a ++ imagePairs b := by
  simp [imagePairs]

theorem imagePairs_appendMathTextSegment (segments : List DiscordMathSegment) (t : Str) :
    imagePairs (appendMathTextSegment segments t) = imagePairs segments := by
  induction segments, t using appendMathTextSegment.induct with
  | case1 segments => simp [appendMathTextSegment]
  | case2 t ht => simp [appendMathTextSegment, imagePairs]
  | case3 s t ht => simp [appendMathTextSegment, imagePairs]
  | case4 seg t ht h2 =>
    match seg with
    | .text s => exact absurd rfl (h2 s)
    | .mathImage ft e b n => simp [appendMathTextSegment, imagePairs]
  | case5 seg rest t ht h2 h3 ih =>
    have heq : appendMathTextSegment (seg :: rest) t = seg :: appendMathTextSegment rest t := by
      match rest with
      | [] => exact absurd rfl h3
      | r :: rs => cases seg <;> cases t <;> simp [appendMathTextSegment]
    rw [heq]
    simp only [imagePairs, List.filterMap_cons] at ih ⊢
    split
    · exact ih
    · rw [ih]

theorem appearsInTextSegment_append (segments : List DiscordMathSegment) (t raw : Str)
    (h : appearsInTextSegment segments raw) :
    appearsInTextSegment (appendMathTextSegment segments t) raw := by
  induction segments, t using appendMathTextSegment.induct with
  | case1 segments => simpa [appendMathTextSegment] using h
  | case2 t ht =>
    obtain ⟨u, v, hmem⟩ := h
    simp at hmem
  | case3 s t ht =>
    obtain ⟨u, v, hmem⟩ := h
    simp only [List.mem_singleton] at hmem
    obtain rfl : s = u ++ raw ++ v := by injection hmem.symm
    exact ⟨u, v ++ t, by simp [appendMathTextSegment]⟩
  | case4 seg t ht h2 =>
    obtain ⟨u, v, hmem⟩ := h
    simp only [List.mem_singleton] at hmem
    exact absurd hmem.symm (h2 (u ++ raw ++ v))
  | case5 seg rest t ht h2 h3 ih =>
    have heq : appendMathTextSegment (seg :: rest) t = seg :: appendMathTextSegment rest t := by
      match rest with
      | [] => exact absurd rfl h3
      | r :: rs => cases seg <;> cases t <;> simp [appendMathTextSegment]
    rw [heq]
    obtain ⟨u, v, hmem⟩ := h
    rcases List.mem_cons.mp hmem with hmem | hmem
    · exact ⟨u, v, hmem ▸ List.mem_cons_self _ _⟩
    · obtain ⟨u', v', hmem'⟩ := ih ⟨u, v, hmem⟩
      exact ⟨u', v', List.mem_cons_of_mem _ hmem'⟩

theorem appearsInTextSegment_push (segments : List DiscordMathSegment)
    (s : DiscordMathSegment) (raw : Str)
    (h : appearsInTextSegment segments raw) :
    appearsInTextSegment (segments ++ [s]) raw := by
  obtain ⟨u, v, hmem⟩ := h
  exact ⟨u, v, List.mem_append_left _ hmem⟩

theorem appearsInTextSegment_intro (segments : List DiscordMathSegment) (raw : Str)
    (hraw : raw ≠ []) :
    appearsInTextSegment (appendMathTextSegment segments raw) raw := by
  induction segments, raw using appendMathTextSegment.induct with
  | case1 segments => exact absurd rfl hraw
  | case2 t ht => exact ⟨[], [], by simp [appendMathTextSegment]⟩
  | case3 s t ht => exact ⟨s, [], by simp [appendMathTextSegment]⟩
  | case4 seg t ht h2 =>
    match seg with
    | .text s => exact absurd rfl (h2 s)
    | .mathImage ft e b n =>
      exact ⟨[], [], by simp [appendMathTextSegment]⟩
  | case5 seg rest t ht h2 h3 ih =>
    have heq : appendMathTextSegment (seg :: rest) t = seg :: appendMathTextSegment rest t := by
      match rest with
      | [] => exact absurd rfl h3
      | r :: rs => cases seg <;> cases t <;> simp [appendMathTextSegment]
    rw [heq]
    obtain ⟨u, v, hmem⟩ := ih ht
    exact ⟨u, v, List.mem_cons_of_mem _ hmem⟩

theorem buildSegmentsLoop_preserves_appears (config : ResolvedDiscordMathImageConfig)
    (render : RenderBehaviour) :
    ∀ (tokens : List DiscordMathToken) (segments : List DiscordMathSegment)
      (imageCount : Nat) (calls : List Str) (raw : Str),
      appearsInTextSegment segments raw →
      appearsInTextSegment (buildSegmentsLoop config render tokens segments imageCount calls).1
        raw := by
  intro tokens
  induction tokens with
  | nil =>
    intro segments imageCount calls raw h
    exact h
  | cons tok rest ih =>
    intro segments imageCount calls raw h
    cases tok with
    | text t =>
      simp only [buildSegmentsLoop]
      exact ih _ _ _ _ (appearsInTextSegment_append _ _ _ h)
    | formula raw' e =>
      simp only [buildSegmentsLoop]
      split
      · exact ih _ _ _ _ (appearsInTextSegment_append _ _ _ h)
      · split
        · exact ih _ _ _ _ (appearsInTextSegment_append _ _ _ h)
        · split
          · exact ih _ _ _ _ (appearsInTextSegment_push _ _ _ h)
          · exact ih _ _ _ _ (appearsInTextSegment_append _ _ _ h)

/-- Characterization of a build run in which every render call succeeds and
every formula expression is within the length limit: the math images are
exactly the first `k - imageCount` formula pairs, the image count grows by
`min n (k - imageCount)`, the render calls are exactly the rendered
expressions, and each remaining formula's raw text lands verbatim inside a
text segment. -/
theorem buildSegmentsLoop_success_run (config : ResolvedDiscordMathImageConfig)
    (render : RenderBehaviour)
    (hrender : ∀ c e w, (render c e w).isSome = true) :
    ∀ (tokens : List DiscordMathToken) (segments : List DiscordMathSegment)
      (imageCount : Nat) (calls : List Str),
      imageCount ≤ config.maxExpressionsPerReply →
      (∀ pr ∈ formulaPairs tokens, pr.2.length ≤ config.maxCharsPerExpression) →
      imagePairs (buildSegmentsLoop config render tokens segments imageCount calls).1 =
          imagePairs segments ++
            (formulaPairs tokens).take (config.maxExpressionsPerReply - imageCount) ∧
        (buildSegmentsLoop config render tokens segments imageCount calls).2.1 =
          imageCount +
            min (formulaPairs tokens).length
              (config.maxExpressionsPerReply - imageCount) ∧
        (buildSegmentsLoop config render tokens segments imageCount calls).2.2 =
          calls ++
            ((formulaPairs tokens).take
              (config.maxExpressionsPerReply - imageCount)).map Prod.snd ∧
        ∀ pr ∈ (formulaPairs tokens).drop (config.maxExpressionsPerReply - imageCount),
          pr.1 ≠ [] →
          appearsInTextSegment
            (buildSegmentsLoop config render tokens segments imageCount calls).1 pr.1 := by
  intro tokens
  induction tokens with
  | nil =>
    intro segments imageCount calls hle hlen
    simp [buildSegmentsLoop, formulaPairs]
  | cons tok rest ih =>
    intro segments imageCount calls hle hlen
    cases tok with
    | text t =>
      have hlen' : ∀ pr ∈ formulaPairs rest, pr.2.length ≤ config.maxCharsPerExpression := by
        intro pr hpr
        exact hlen pr (by simp [formulaPairs] at hpr ⊢; exact hpr)
      have hpairs : formulaPairs (DiscordMathToken.text t :: rest) = formulaPairs rest := by
        simp [formulaPairs]
      simp only [buildSegmentsLoop]
      obtain ⟨h1, h2, h3, h4⟩ := ih (appendMathTextSegment segments t) imageCount calls hle hlen'
      rw [hpairs]
      exact ⟨by rw [h1, imagePairs_appendMathTextSegment], h2, h3, h4⟩
    | formula raw e =>
      have hpairs : formulaPairs (DiscordMathToken.formula raw e :: rest) =
          (raw, e) :: formulaPairs rest := by
        simp [formulaPairs]
      have hlen' : ∀ pr ∈ formulaPairs rest, pr.2.length ≤ config.maxCharsPerExpression := by
        intro pr hpr
        refine hlen pr ?_
        rw [hpairs]
        exact List.mem_cons_of_mem _ hpr
      have helen : e.length ≤ config.maxCharsPerExpression := by
        have := hlen (raw, e) (by rw [hpairs]; exact List.mem_cons_self _ _)
        simpa using this
      simp only [buildSegmentsLoop]
      split
      · -- over the per-reply count: imageCount = maxExpressionsPerReply
        rename_i hcount
        have hik : imageCount = config.maxExpressionsPerReply := by omega
        have hzero : config.maxExpressionsPerReply - imageCount = 0 := by omega
        obtain ⟨h1, h2, h3, h4⟩ :=
          ih (appendMathTextSegment segments raw) imageCount calls hle hlen'
        rw [hpairs, hzero]
        refine ⟨?_, ?_, ?_, ?_⟩
        · rw [h1, hzero, imagePairs_appendMathTextSegment]
          simp
        · rw [h2, hzero]
          simp
        · rw [h3, hzero]
          simp
        · intro pr hpr hne
          simp only [List.drop_zero] at hpr
          rcases List.mem_cons.mp hpr with rfl | hpr
          · exact buildSegmentsLoop_preserves_appears config render _ _ _ _ _
              (appearsInTextSegment_intro segments raw hne)
          · exact h4 pr (by rw [hzero]; simpa using hpr) hne
      · split
        · -- impossible: the expression is within the length limit
          rename_i hlong
          omega
        · rename_i hcount hlong
          have hlt : imageCount < config.maxExpressionsPerReply := by omega
          cases hrcall : render calls.length e config.maxImageWidthPx with
          | none =>
            have := hrender calls.length e config.maxImageWidthPx
            rw [hrcall] at this
            simp at this
          | some buf =>
            obtain ⟨h1, h2, h3, h4⟩ :=
              ih (segments ++
                  [DiscordMathSegment.mathImage raw e buf
                    (mathImageFileName (imageCount + 1))])
                (imageCount + 1) (calls ++ [e]) (by omega) hlen'
            have hsub : config.maxExpressionsPerReply - imageCount =
                (config.maxExpressionsPerReply - (imageCount + 1)) + 1 := by omega
            rw [hpairs, hsub]
            refine ⟨?_, ?_, ?_, ?_⟩
            · rw [h1, imagePairs_append, List.take_succ_cons]
              simp [imagePairs]
            · rw [h2]
              have : min (formulaPairs rest).length
                    (config.maxExpressionsPerReply - (imageCount + 1)) + 1 =
                  min ((formulaPairs rest).length + 1)
                    (config.maxExpressionsPerReply - imageCount) := by
                omega
              simp only [List.length_cons]
              omega
            · rw [h3, List.take_succ_cons]
              simp
            · intro pr hpr hne
              rw [List.drop_succ_cons] at hpr
              exact h4 pr hpr hne

theorem formulaPairs_mem_token {tokens : List DiscordMathToken} {pr : Str × Str}
    (h : pr ∈ formulaPairs tokens) : DiscordMathToken.formula pr.1 pr.2 ∈ tokens := by
  unfold formulaPairs at h
  rw [List.mem_filterMap] at h
  obtain ⟨tok, htok, heq⟩ := h
  match tok with
  | .text t => simp at heq
  | .formula raw e =>
    simp only [Option.some_inj] at heq
    rw [← heq]
    exact htok

/-- Both fixed delimiter specs have non-empty close markers. -/
theorem delimiterSpecs_close_ne_nil : ∀ d ∈ DELIMITER_SPECS, d.closeMarker ≠ [] := by
  decide

theorem formulaProvenance_raw_ne_nil {text : Str} {delims : List DelimiterSpec}
    {inside : Option (Nat → Bool)} {raw e : Str}
    (hne : ∀ d ∈ delims, d.openMarker ≠ []) (hnec : ∀ d ∈ delims, d.closeMarker ≠ [])
    (h : formulaProvenance text delims inside raw e) : raw ≠ [] := by
  obtain ⟨d, i, c, hd, ⟨hmo, -⟩, ⟨hmc, -⟩, hlec, hraw, -⟩ := h
  have hcb : c + d.closeMarker.length ≤ text.length := matchAt_bound (hnec d hd) hmc
  have hopos : 0 < d.openMarker.length := List.length_pos.mpr (hne d hd)
  subst hraw
  intro hnil
  have hlen : (sliceStr text i (c + d.closeMarker.length)).length = 0 := by
    rw [hnil]
    rfl
  unfold sliceStr at hlen
  rw [List.length_drop, List.length_take] at hlen
  omega

theorem formulaPairs_eq_nil_iff (tokens : List DiscordMathToken) :
    formulaPairs tokens = [] ↔ tokens.any DiscordMathToken.isFormula = false := by
  unfold formulaPairs
  rw [List.filterMap_eq_nil, List.any_eq_false]
  constructor
  · intro h tok htok
    have := h tok htok
    cases tok with
    | text t => simp [DiscordMathToken.isFormula]
    | formula raw e => simp at this
  · intro h tok htok
    have := h tok htok
    cases tok with
    | text t => rfl
    | formula raw e => simp [DiscordMathToken.isFormula] at this

theorem tokenizeMathText_empty (codeSpanIndex : Str → Nat → Bool)
    (config : ResolvedDiscordMathImageConfig) :
    tokenizeMathText codeSpanIndex [] config = [DiscordMathToken.text []] := by
  rw [tokenizeMathText]
  simp only []
  split
  · rfl
  · rw [tokenizeLoop_stop (by simp)]
    simp

/-- C2 --- Per-reply count limit: with the feature enabled, `n` formula tokens
all within the length limit and an always-succeeding renderer, the build
produces exactly `min n k` math-image segments (`k` the configured
`maxExpressionsPerReply`), in source order (they are exactly the first `k`
formula pairs); the renderer is called exactly on those first `min n k`
expressions (so the remaining `n - k` are never passed to it and never
increment the rendered-image count), and each remaining formula's `rawText`
appears verbatim inside a text segment. -/
theorem C2_count_limit (codeSpanIndex : Str → Nat → Bool) (render : RenderBehaviour)
    (text : Str) (configInput : Option DiscordMathImageConfig)
    (config : ResolvedDiscordMathImageConfig) (tokens : List DiscordMathToken)
    (result : DiscordMathSegmentResult)
    (run : List DiscordMathSegment × Nat × List Str) (k : Nat)
    (hconfig : config = resolveDiscordMathImageConfig configInput)
    (htokens : tokens = tokenizeMathText codeSpanIndex text config)
    (hresult : result = buildDiscordMathSegments codeSpanIndex render text configInput)
    (hrun : run = buildSegmentsLoop config render tokens [] 0 [])
    (hk : k = config.maxExpressionsPerReply)
    (henabled : config.enabled = true)
    (hlen : ∀ pr ∈ formulaPairs tokens, pr.2.length ≤ config.maxCharsPerExpression)
    (hrender : ∀ c e w, (render c e w).isSome = true) :
    imagePairs result.segments = (formulaPairs tokens).take k ∧
      (imagePairs result.segments).length = min (formulaPairs tokens).length k ∧
      run.2.1 = min (formulaPairs tokens).length k ∧
      run.2.2 = ((formulaPairs tokens).take k).map Prod.snd ∧
      ∀ pr ∈ (formulaPairs tokens).drop k, appearsInTextSegment result.segments pr.1 := by
  subst hconfig htokens hresult hrun hk
  set config := resolveDiscordMathImageConfig configInput with hconfig
  set tokens := tokenizeMathText codeSpanIndex text config with htokens
  have hkpos : 0 < config.maxExpressionsPerReply :=
    normalizePositiveInt_pos (by simp [DEFAULT_MAX_EXPRESSIONS])
  obtain ⟨h1, h2, h3, h4⟩ :=
    buildSegmentsLoop_success_run config render hrender tokens [] 0 [] (by omega) hlen
  rw [show imagePairs ([] : List DiscordMathSegment) = [] from rfl, List.nil_append] at h1
  rw [Nat.sub_zero] at h1 h2 h3 h4
  rw [Nat.zero_add] at h2
  rw [List.nil_append] at h3
  have hraw_ne : ∀ pr ∈ formulaPairs tokens, pr.1 ≠ [] := by
    intro pr hpr
    have hmem := formulaPairs_mem_token hpr
    have hprov := tokenizeMathText_formula_provenance codeSpanIndex text config hmem
    exact formulaProvenance_raw_ne_nil
      (activeDelimiters_open_ne_nil config)
      (fun d hd => delimiterSpecs_close_ne_nil d (List.mem_of_mem_filter hd)) hprov
  have hmain :
      (buildDiscordMathSegments codeSpanIndex render text configInput).segments =
          (buildSegmentsLoop config render tokens [] 0 []).1 ∨
        ((buildDiscordMathSegments codeSpanIndex render text configInput).segments =
            [DiscordMathSegment.text text] ∧ formulaPairs tokens = []) := by
    rw [buildDiscordMathSegments]
    simp only []
    split
    · rename_i hshort
      right
      refine ⟨rfl, ?_⟩
      simp only [← hconfig, henabled, Bool.not_true, Bool.false_or] at hshort
      rw [List.isEmpty_iff] at hshort
      subst hshort
      rw [htokens, tokenizeMathText_empty]
      simp [formulaPairs]
    · split
      · rename_i hnoform
        right
        rw [Bool.not_eq_true'] at hnoform
        exact ⟨rfl, (formulaPairs_eq_nil_iff tokens).mpr hnoform⟩
      · split
        · rename_i hempty
          rename_i hnoform
          exfalso
          have hpairs_ne : formulaPairs tokens ≠ [] := by
            intro hnil
            rw [(formulaPairs_eq_nil_iff tokens).mp hnil] at hnoform
            simp at hnoform
          have himg : imagePairs (buildSegmentsLoop config render tokens [] 0 []).1 ≠ [] := by
            rw [h1]
            intro htake
            rw [List.take_eq_nil_iff] at htake
            rcases htake with htake | htake
            · omega
            · exact hpairs_ne htake
          rw [List.isEmpty_iff] at hempty
          rw [hempty] at himg
          simp [imagePairs] at himg
        · left
          rfl
  rcases hmain with hmain | ⟨hmain, hpairs⟩
  · rw [hmain]
    refine ⟨h1, ?_, h2, h3, ?_⟩
    · rw [h1, List.length_take, Nat.min_comm]
    · intro pr hpr
      exact h4 pr hpr (hraw_ne pr (List.mem_of_mem_drop hpr))
  · rw [hmain]
    rw [hpairs] at h2 h3 ⊢
    refine ⟨by simp [imagePairs], ?_, h2, h3, by simp⟩
    simp [imagePairs, Nat.zero_min]

/-- Concrete evaluation: tokenizing `"$$$$"` (no code exclusion) yields one
formula token with raw text `"$$$$"` and empty expression. -/
theorem tokenizeMathText_dollars_eval :
    tokenizeMathText (fun _ _ => false) ['$', '$', '$', '$']
        (resolveDiscordMathImageConfig (some { excludeCode := some false })) =
      [DiscordMathToken.formula ['$', '$', '$', '$'] []] := by
  have hdelim :
      activeDelimiters (resolveDiscordMathImageConfig (some { excludeCode := some false })) =
        DELIMITER_SPECS := by decide
  have h1 : scanForMarker ['$', '$', '$', '$'] ['$', '$'] none 0 = some 0 :=
    scanForMarker_found (by decide) (by decide) (by decide)
  have h2 : scanForMarker ['$', '$', '$', '$'] ['\\', '['] none 0 = none :=
    scanForMarker_nomatch (by decide) (by decide)
  have hop : findNextOpening ['$', '$', '$', '$'] 0
      (activeDelimiters (resolveDiscordMathImageConfig (some { excludeCode := some false })))
      none =
      some (0,
        { kind := .doubleDollar, openMarker := ['$', '$'], closeMarker := ['$', '$'] }) := by
    rw [hdelim]
    simp [findNextOpening, DELIMITER_SPECS, findNextOpeningStep, h1, h2]
  have hcl : findClosingIndex ['$', '$', '$', '$'] 2
      { kind := .doubleDollar, openMarker := ['$', '$'], closeMarker := ['$', '$'] } none =
      some 2 :=
    scanForMarker_found (by decide) (by decide) (by decide)
  have hloop : tokenizeLoop ['$', '$', '$', '$']
      (activeDelimiters (resolveDiscordMathImageConfig (some { excludeCode := some false })))
      (activeDelimiters_open_ne_nil
        (resolveDiscordMathImageConfig (some { excludeCode := some false })))
      none [] 0 =
      [DiscordMathToken.formula ['$', '$', '$', '$'] []] := by
    rw [tokenizeLoop_formula (by decide) hop hcl, tokenizeLoop_stop (by decide)]
    decide
  have hex : (resolveDiscordMathImageConfig
      (some { excludeCode := some false })).excludeCode = false := by decide
  have hne1 : (activeDelimiters (resolveDiscordMathImageConfig
      (some { excludeCode := some false }))).isEmpty = false := by decide
  rw [tokenizeMathText]
  simp only [hne1, hex, Bool.false_eq_true, if_false, hloop]
  simp

/-- Witness for C2 at the input `"$$$$"` (one zero-length formula, always
succeeding renderer, `excludeCode` disabled, default limits `k = 8`). -/
theorem C2_count_limit_witness :
    [DiscordMathToken.formula ['$', '$', '$', '$'] []] =
        tokenizeMathText (fun _ _ => false) ['$', '$', '$', '$']
          (resolveDiscordMathImageConfig (some { excludeCode := some false })) ∧
      (∀ pr ∈ formulaPairs [DiscordMathToken.formula ['$', '$', '$', '$'] []],
        pr.2.length ≤ (resolveDiscordMathImageConfig
          (some { excludeCode := some false })).maxCharsPerExpression) ∧
      (imagePairs (buildDiscordMathSegments (fun _ _ => false) (fun _ _ _ => some [])
            ['$', '$', '$', '$'] (some { excludeCode := some false })).segments =
          (formulaPairs [DiscordMathToken.formula ['$', '$', '$', '$'] []]).take 8 ∧
        (imagePairs (buildDiscordMathSegments (fun _ _ => false) (fun _ _ _ => some [])
              ['$', '$', '$', '$'] (some { excludeCode := some false })).segments).length =
          min (formulaPairs [DiscordMathToken.formula ['$', '$', '$', '$'] []]).length 8 ∧
        (buildSegmentsLoop (resolveDiscordMathImageConfig (some { excludeCode := some false }))
              (fun _ _ _ => some []) [DiscordMathToken.formula ['$', '$', '$', '$'] []]
              [] 0 []).2.1 =
          min (formulaPairs [DiscordMathToken.formula ['$', '$', '$', '$'] []]).length 8 ∧
        (buildSegmentsLoop (resolveDiscordMathImageConfig (some { excludeCode := some false }))
              (fun _ _ _ => some []) [DiscordMathToken.formula ['$', '$', '$', '$'] []]
              [] 0 []).2.2 =
          ((formulaPairs [DiscordMathToken.formula ['$', '$', '$', '$'] []]).take 8).map
            Prod.snd ∧
        ∀ pr ∈ (formulaPairs [DiscordMathToken.formula ['$', '$', '$', '$'] []]).drop 8,
          appearsInTextSegment
            (buildDiscordMathSegments (fun _ _ => false) (fun _ _ _ => some [])
              ['$', '$', '$', '$'] (some { excludeCode := some false })).segments pr.1) :=
  ⟨tokenizeMathText_dollars_eval.symm, by decide,
    C2_count_limit (fun _ _ => false) (fun _ _ _ => some []) ['$', '$', '$', '$']
      (some { excludeCode := some false })
      (resolveDiscordMathImageConfig (some { excludeCode := some false }))
      [DiscordMathToken.formula ['$', '$', '$', '$'] []]
      (buildDiscordMathSegments (fun _ _ => false) (fun _ _ _ => some [])
        ['$', '$', '$', '$'] (some { excludeCode := some false }))
      (buildSegmentsLoop (resolveDiscordMathImageConfig (some { excludeCode := some false }))
        (fun _ _ _ => some []) [DiscordMathToken.formula ['$', '$', '$', '$'] []] [] 0 [])
      8 rfl tokenizeMathText_dollars_eval.symm rfl rfl (by decide) (by decide) (by decide)
      (fun _ _ _ => rfl)⟩

theorem appendMathTextSegment_not_image {segments : List DiscordMathSegment} {t : Str}
    (h : ∀ s ∈ segments, s.isMathImage = false) :
    ∀ s ∈ appendMathTextSegment segments t, s.isMathImage = false := by
  intro s hs
  cases s with
  | text u => rfl
  | mathImage ft e buf name =>
    have := h _ (mem_appendMathTextSegment_mathImage hs)
    simp [DiscordMathSegment.isMathImage] at this

theorem buildSegmentsLoop_allfail (config : ResolvedDiscordMathImageConfig)
    (render : RenderBehaviour) (hrender : ∀ c e w, render c e w = none) :
    ∀ (tokens : List DiscordMathToken) (segments : List DiscordMathSegment)
      (imageCount : Nat) (calls : List Str),
      (∀ s ∈ segments, s.isMathImage = false) →
      (∀ s ∈ (buildSegmentsLoop config render tokens segments imageCount calls).1,
          s.isMathImage = false) ∧
        (buildSegmentsLoop config render tokens segments imageCount calls).2.1 =
          imageCount := by
  intro tokens
  induction tokens with
  | nil =>
    intro segments imageCount calls h
    exact ⟨h, rfl⟩
  | cons tok rest ih =>
    intro segments imageCount calls h
    cases tok with
    | text t =>
      simp only [buildSegmentsLoop]
      exact ih _ _ _ (appendMathTextSegment_not_image h)
    | formula raw e =>
      simp only [buildSegmentsLoop, hrender]
      split
      · exact ih _ _ _ (appendMathTextSegment_not_image h)
      · split
        · exact ih _ _ _ (appendMathTextSegment_not_image h)
        · exact ih _ _ _ (appendMathTextSegment_not_image h)

/-- C3 --- Render-failure fallback is local and non-fatal: a formula token
within both limits whose render call fails contributes its `rawText` as
literal text (merged into the segment list), does not increment the
rendered-image count, and processing simply continues with the remaining
tokens; moreover with an always-failing renderer the public entry point still
returns a result with no math-image segment, `hasMathImages = false`, and the
input text reconstructed exactly — the failure never propagates (failure is
the `none` branch, absorbed locally; `buildDiscordMathSegments` is a total
function). -/
theorem C3_render_failure_fallback (config : ResolvedDiscordMathImageConfig)
    (render : RenderBehaviour) (rest : List DiscordMathToken)
    (segments : List DiscordMathSegment) (imageCount : Nat) (calls : List Str)
    (raw e : Str)
    (hcount : imageCount < config.maxExpressionsPerReply)
    (hlen : e.length ≤ config.maxCharsPerExpression)
    (hfail : render calls.length e config.maxImageWidthPx = none) :
    buildSegmentsLoop config render (DiscordMathToken.formula raw e :: rest) segments
        imageCount calls =
      buildSegmentsLoop config render rest (appendMathTextSegment segments raw)
        imageCount (calls ++ [e]) ∧
      ∀ (codeSpanIndex : Str → Nat → Bool) (render' : RenderBehaviour) (text : Str)
        (configInput : Option DiscordMathImageConfig),
        (∀ c e' w, render' c e' w = none) →
        (buildDiscordMathSegments codeSpanIndex render' text configInput).hasMathImages =
            false ∧
          (∀ s ∈ (buildDiscordMathSegments codeSpanIndex render' text configInput).segments,
            s.isMathImage = false) ∧
          segmentsConcat
              (buildDiscordMathSegments codeSpanIndex render' text configInput).segments =
            text := by
  constructor
  · simp only [buildSegmentsLoop, Nat.not_le.mpr hcount, if_false, hfail]
    rw [if_neg (by omega)]
  · intro codeSpanIndex render' text configInput hrender
    have hconcat : segmentsConcat
        (buildDiscordMathSegments codeSpanIndex render' text configInput).segments = text := by
      rw [buildDiscordMathSegments]
      simp only []
      split
      · simp [segmentsConcat, segmentStr]
      · split
        · simp [segmentsConcat, segmentStr]
        · split
          · simp [segmentsConcat, segmentStr]
          · rw [buildSegmentsLoop_concat, tokenizeMathText_concat]
            simp [segmentsConcat]
    have hnoimg : ∀ s ∈ (buildDiscordMathSegments codeSpanIndex render' text
        configInput).segments, s.isMathImage = false := by
      rw [buildDiscordMathSegments]
      simp only []
      split
      · intro s hs
        simp only [List.mem_singleton] at hs
        subst hs
        rfl
      · split
        · intro s hs
          simp only [List.mem_singleton] at hs
          subst hs
          rfl
        · split
          · intro s hs
            simp only [List.mem_singleton] at hs
            subst hs
            rfl
          · exact (buildSegmentsLoop_allfail _ render' hrender _ [] 0 [] (by simp)).1
    refine ⟨?_, hnoimg, hconcat⟩
    rw [buildDiscordMathSegments]
    simp only []
    split
    · rfl
    · split
      · rfl
      · split
        · rfl
        · rw [List.any_eq_false]
          intro s hs
          rw [(buildSegmentsLoop_allfail _ render' hrender _ [] 0 [] (by simp)).1 s hs]
          simp

/-- Witness for C3 at a concrete failing render call (`"$$x$$"`,
always-failing renderer, default limits). -/
theorem C3_render_failure_fallback_witness :
    0 < (resolveDiscordMathImageConfig none).maxExpressionsPerReply ∧
      (['x'] : Str).length ≤ (resolveDiscordMathImageConfig none).maxCharsPerExpression ∧
      (fun (_ : Nat) (_ : Str) (_ : Nat) => (none : Option (List Nat))) 0 ['x']
          (resolveDiscordMathImageConfig none).maxImageWidthPx = none ∧
      (buildSegmentsLoop (resolveDiscordMathImageConfig none) (fun _ _ _ => none)
            (DiscordMathToken.formula ['$', '$', 'x', '$', '$'] ['x'] :: []) [] 0 [] =
          buildSegmentsLoop (resolveDiscordMathImageConfig none) (fun _ _ _ => none) []
            (appendMathTextSegment [] ['$', '$', 'x', '$', '$']) 0 ([] ++ [['x']]) ∧
        ∀ (codeSpanIndex : Str → Nat → Bool) (render' : RenderBehaviour) (text : Str)
          (configInput : Option DiscordMathImageConfig),
          (∀ c e' w, render' c e' w = none) →
          (buildDiscordMathSegments codeSpanIndex render' text configInput).hasMathImages =
              false ∧
            (∀ s ∈ (buildDiscordMathSegments codeSpanIndex render' text
                configInput).segments, s.isMathImage = false) ∧
            segmentsConcat
                (buildDiscordMathSegments codeSpanIndex render' text
                  configInput).segments =
              text) :=
  ⟨by decide, by decide, rfl,
    C3_render_failure_fallback (resolveDiscordMathImageConfig none) (fun _ _ _ => none)
      [] [] 0 [] ['$', '$', 'x', '$', '$'] ['x'] (by decide) (by decide) rfl⟩

theorem buildSegmentsLoop_calls_bounded (config : ResolvedDiscordMathImageConfig)
    (render : RenderBehaviour) :
    ∀ (tokens : List DiscordMathToken) (segments : List DiscordMathSegment)
      (imageCount : Nat) (calls : List Str),
      (∀ e ∈ calls, e.length ≤ config.maxCharsPerExpression) →
      ∀ e ∈ (buildSegmentsLoop config render tokens segments imageCount calls).2.2,
        e.length ≤ config.maxCharsPerExpression := by
  intro tokens
  induction tokens with
  | nil =>
    intro segments imageCount calls h
    exact h
  | cons tok rest ih =>
    intro segments imageCount calls h
    cases tok with
    | text t =>
      simp only [buildSegmentsLoop]
      exact ih _ _ _ h
    | formula raw e =>
      simp only [buildSegmentsLoop]
      split
      · exact ih _ _ _ h
      · split
        · exact ih _ _ _ h
        · rename_i hcount hlong
          have hin : e.length ≤ config.maxCharsPerExpression := by omega
          have h' : ∀ e' ∈ calls ++ [e], e'.length ≤ config.maxCharsPerExpression := by
            intro e' he'
            rcases List.mem_append.mp he' with he' | he'
            · exact h e' he'
            · simp only [List.mem_singleton] at he'
              subst he'
              exact hin
          split
          · exact ih _ _ _ h'
          · exact ih _ _ _ h'

theorem buildSegmentsLoop_overlength_appears (config : ResolvedDiscordMathImageConfig)
    (render : RenderBehaviour) :
    ∀ (tokens : List DiscordMathToken) (segments : List DiscordMathSegment)
      (imageCount : Nat) (calls : List Str) (pr : Str × Str),
      pr ∈ formulaPairs tokens → pr.2.length > config.maxCharsPerExpression → pr.1 ≠ [] →
      appearsInTextSegment (buildSegmentsLoop config render tokens segments imageCount calls).1
        pr.1 := by
  intro tokens
  induction tokens with
  | nil =>
    intro segments imageCount calls pr hpr
    simp [formulaPairs] at hpr
  | cons tok rest ih =>
    intro segments imageCount calls pr hpr hlong hne
    cases tok with
    | text t =>
      simp only [buildSegmentsLoop]
      refine ih _ _ _ pr ?_ hlong hne
      simpa [formulaPairs] using hpr
    | formula raw e =>
      have hpairs : formulaPairs (DiscordMathToken.formula raw e :: rest) =
          (raw, e) :: formulaPairs rest := by
        simp [formulaPairs]
      rw [hpairs] at hpr
      rcases List.mem_cons.mp hpr with rfl | hpr
      · by_cases hcount : imageCount ≥ config.maxExpressionsPerReply
        · simp only [buildSegmentsLoop, if_pos hcount]
          exact buildSegmentsLoop_preserves_appears config render _ _ _ _ _
            (appearsInTextSegment_intro segments raw hne)
        · have hl : e.length > config.maxCharsPerExpression := hlong
          simp only [buildSegmentsLoop, if_neg hcount, if_pos hl]
          exact buildSegmentsLoop_preserves_appears config render _ _ _ _ _
            (appearsInTextSegment_intro segments raw hne)
      · by_cases hcount : imageCount ≥ config.maxExpressionsPerReply
        · simp only [buildSegmentsLoop, if_pos hcount]
          exact ih _ _ _ pr hpr hlong hne
        · by_cases hl : e.length > config.maxCharsPerExpression
          · simp only [buildSegmentsLoop, if_neg hcount, if_pos hl]
            exact ih _ _ _ pr hpr hlong hne
          · simp only [buildSegmentsLoop, if_neg hcount, if_neg hl]
            cases hr : render calls.length e config.maxImageWidthPx with
            | none =>
              simp only [hr]
              exact ih _ _ _ pr hpr hlong hne
            | some buf =>
              simp only [hr]
              exact ih _ _ _ pr hpr hlong hne

/-- A slice of the text occurs verbatim in the single whole-text segment. -/
theorem appearsInTextSegment_whole (text : Str) {raw : Str} {i j : Nat}
    (hij : i ≤ j) (hraw : raw = sliceStr text i j) :
    appearsInTextSegment [DiscordMathSegment.text text] raw := by
  refine ⟨text.take i, text.drop j, ?_⟩
  rw [List.mem_singleton, hraw, take_append_sliceStr hij, List.take_append_drop]

/-- C6 --- Per-expression length limit: the renderer is only ever invoked on
expressions whose length is at most `maxCharsPerExpression` (so an over-length
formula is never passed to it), every over-length formula token's `rawText`
appears verbatim as text in the output, and a formula whose expression length
equals the limit exactly is still eligible: within the count limit and with a
succeeding render call it becomes a math-image segment. -/
theorem C6_length_limit (codeSpanIndex : Str → Nat → Bool) (render : RenderBehaviour)
    (text : Str) (configInput : Option DiscordMathImageConfig)
    (config : ResolvedDiscordMathImageConfig) (tokens : List DiscordMathToken)
    (result : DiscordMathSegmentResult) (run : List DiscordMathSegment × Nat × List Str)
    (hconfig : config = resolveDiscordMathImageConfig configInput)
    (htokens : tokens = tokenizeMathText codeSpanIndex text config)
    (hresult : result = buildDiscordMathSegments codeSpanIndex render text configInput)
    (hrun : run = buildSegmentsLoop config render tokens [] 0 []) :
    (∀ e ∈ run.2.2, e.length ≤ config.maxCharsPerExpression) ∧
      (∀ pr ∈ formulaPairs tokens, pr.2.length > config.maxCharsPerExpression →
        appearsInTextSegment result.segments pr.1) ∧
      (∀ (rest : List DiscordMathToken) (segments : List DiscordMathSegment)
        (imageCount : Nat) (calls : List Str) (raw e : Str) (buf : List Nat),
        imageCount < config.maxExpressionsPerReply →
        e.length = config.maxCharsPerExpression →
        render calls.length e config.maxImageWidthPx = some buf →
        buildSegmentsLoop config render (DiscordMathToken.formula raw e :: rest) segments
            imageCount calls =
          buildSegmentsLoop config render rest
            (segments ++
              [DiscordMathSegment.mathImage raw e buf (mathImageFileName (imageCount + 1))])
            (imageCount + 1) (calls ++ [e])) := by
  subst hconfig htokens hresult hrun
  set config := resolveDiscordMathImageConfig configInput with hconfig
  set tokens := tokenizeMathText codeSpanIndex text config with htokens
  refine ⟨buildSegmentsLoop_calls_bounded config render tokens [] 0 [] (by simp), ?_, ?_⟩
  · intro pr hpr hlong
    have hmem := formulaPairs_mem_token hpr
    have hprov := tokenizeMathText_formula_provenance codeSpanIndex text config hmem
    have hne : pr.1 ≠ [] := formulaProvenance_raw_ne_nil
      (activeDelimiters_open_ne_nil config)
      (fun d hd => delimiterSpecs_close_ne_nil d (List.mem_of_mem_filter hd)) hprov
    obtain ⟨d, i, c, hd, -, -, hlec, hraw, -⟩ := hprov
    have hwhole : appearsInTextSegment [DiscordMathSegment.text text] pr.1 :=
      appearsInTextSegment_whole text (by omega) hraw
    rw [buildDiscordMathSegments]
    simp only []
    split
    · exact hwhole
    · split
      · exact hwhole
      · split
        · exact hwhole
        · exact buildSegmentsLoop_overlength_appears config render tokens [] 0 [] pr hpr
            hlong hne
  · intro rest segments imageCount calls raw e buf hcount hlen hsucc
    simp only [buildSegmentsLoop, Nat.not_le.mpr hcount, if_false, hsucc]
    rw [if_neg (by omega)]

/-- Witness for C6 at a concrete instance: `maxCharsPerExpression = 1` with
the boundary expression `"x"` (length exactly 1: rendered) for the third
conjunct, over the input `"$$$$"`. -/
theorem C6_length_limit_witness :
    ((∀ e ∈ (buildSegmentsLoop (resolveDiscordMathImageConfig
            (some { excludeCode := some false }))
          (fun _ _ _ => some []) [DiscordMathToken.formula ['$', '$', '$', '$'] []] [] 0 []).2.2,
        e.length ≤ (resolveDiscordMathImageConfig
          (some { excludeCode := some false })).maxCharsPerExpression) ∧
      (∀ pr ∈ formulaPairs [DiscordMathToken.formula ['$', '$', '$', '$'] []],
        pr.2.length > (resolveDiscordMathImageConfig
            (some { excludeCode := some false })).maxCharsPerExpression →
        appearsInTextSegment
          (buildDiscordMathSegments (fun _ _ => false) (fun _ _ _ => some [])
            ['$', '$', '$', '$']
            (some { excludeCode := some false })).segments pr.1) ∧
      (∀ (rest : List DiscordMathToken) (segments : List DiscordMathSegment)
        (imageCount : Nat) (calls : List Str) (raw e : Str) (buf : List Nat),
        imageCount < (resolveDiscordMathImageConfig
            (some { excludeCode := some false })).maxExpressionsPerReply →
        e.length = (resolveDiscordMathImageConfig
            (some { excludeCode := some false })).maxCharsPerExpression →
        (fun (_ : Nat) (_ : Str) (_ : Nat) => (some [] : Option (List Nat)))
            calls.length e (resolveDiscordMathImageConfig
              (some { excludeCode := some false })).maxImageWidthPx = some buf →
        buildSegmentsLoop (resolveDiscordMathImageConfig (some { excludeCode := some false }))
            (fun _ _ _ => some []) (DiscordMathToken.formula raw e :: rest) segments
            imageCount calls =
          buildSegmentsLoop (resolveDiscordMathImageConfig (some { excludeCode := some false }))
            (fun _ _ _ => some []) rest
            (segments ++
              [DiscordMathSegment.mathImage raw e buf (mathImageFileName (imageCount + 1))])
            (imageCount + 1) (calls ++ [e]))) :=
  C6_length_limit (fun _ _ => false) (fun _ _ _ => some [])
    ['$', '$', '$', '$']
    (some { excludeCode := some false })
    (resolveDiscordMathImageConfig (some { excludeCode := some false }))
    [DiscordMathToken.formula ['$', '$', '$', '$'] []]
    (buildDiscordMathSegments (fun _ _ => false) (fun _ _ _ => some [])
      ['$', '$', '$', '$']
      (some { excludeCode := some false }))
    (buildSegmentsLoop (resolveDiscordMathImageConfig (some { excludeCode := some false }))
      (fun _ _ _ => some []) [DiscordMathToken.formula ['$', '$', '$', '$'] []] [] 0 [])
    rfl tokenizeMathText_dollars_eval.symm rfl rfl

end MathImages
